import Mathlib

/-!
# Tetris2: a shallow embedding of `tetris.cpp`

The engine of `src/tetris.cpp` (class `Tetris`) is embedded as pure functions
on a record of its member variables.

* A heap matrix `int**` is a function from a row index and a column index to
  the stored `int`; `m[y][x]` is `m y x`.  Every write the program performs is
  inside the allocated grid.  A read outside the grid (possible only in
  `is_figure_attached` and `does_figure_fit`) is undefined in C++; the
  embedding hands back whatever the function holds there, and the theorems
  quantify over all matrices.
* `getch()` takes the next value of the list `keys` (`ERR = -1` once the list
  is exhausted, as with `nodelay`); the two blocking prompts have no result
  when the list ends before they are answered.
* `rng.rand(lo, hi)` takes the next value of the list `rng`; a value outside
  `[lo, hi]`, or an exhausted list, gives no result.
* `figures.txt` is the token list `figures_txt`; reading past its end gives no
  result.
* The loop of `clear_rows` may run forever, so it is given fuel.
-/

namespace Tetris

/-- The `int**` matrices of the program: `m y x` is `m[y][x]`. -/
abbrev Matrix := Int → Int → Int

/-- The enumeration `States`. -/
inductive States where
  | INITIAL
  | MOVING
  | SHIFTING
  | ATTACHING
  | PAUSE
  | GAME_OVER
  deriving DecidableEq, Repr

/-- Member `m_height{ 20 }`; never assigned. -/
def m_height : Int := 20

/-- Member `m_width{ 10 }`; never assigned. -/
def m_width : Int := 10

end Tetris

/-- The member variables of `class Tetris`, with the three input sources the
methods read from: the generator, the terminal and the catalog file. -/
structure Tetris where
  m_field : Tetris.Matrix
  m_figure : Tetris.Matrix
  m_size : Int
  m_x : Int
  m_y : Int
  state : Tetris.States
  rng : List Int
  keys : List Int
  figures_txt : List Int

namespace Tetris

/-- The function `create_matrix`: a matrix of zeros (the embedding gives 0 to the
cells outside the `h × w` grid as well). -/
def create_matrix (_h _w : Int) : Matrix := fun _ _ => 0

/-- Assignment `m[y][x] = v`. -/
def Matrix.set (m : Matrix) (y x v : Int) : Matrix :=
  fun y' x' => if y' = y ∧ x' = x then v else m y' x'

/-- Loop counters `0, 1, ..., n - 1` of `for (int i = 0; i < n; ++i)`. -/
def upto (n : Int) : List Int := (List.range n.toNat).map Int.ofNat

/-- Loop counters `i, i - 1, ..., 1` of `for (int k = i; k > 0; --k)`. -/
def downto (i : Int) : List Int := (List.range i.toNat).reverse.map (fun k => Int.ofNat k + 1)

/-- Method `is_block_in_field`. -/
def is_block_in_field (x y : Int) : Bool :=
  decide (x ≥ 0) && decide (x < m_width) && decide (y ≥ 0) && decide (y < m_height)

/-- Method `is_figure_in_field`: false at the first occupied cell outside the field. -/
def is_figure_in_field (t : Tetris) : Bool :=
  (upto t.m_size).all fun i => (upto t.m_size).all fun j =>
    !(decide (t.m_figure i j ≠ 0) && !is_block_in_field (t.m_x + j) (t.m_y + i))

/-- Method `does_figure_fit`: false at the first occupied cell on an occupied field cell. -/
def does_figure_fit (t : Tetris) : Bool :=
  (upto t.m_size).all fun i => (upto t.m_size).all fun j =>
    !(decide (t.m_figure i j ≠ 0) && decide (t.m_field (t.m_y + i) (t.m_x + j) ≠ 0))

/-- Method `is_figure_attached`: true at the first occupied cell with the floor
or an occupied field cell right below it. -/
def is_figure_attached (t : Tetris) : Bool :=
  (upto t.m_size).any fun i => (upto t.m_size).any fun j =>
    decide (t.m_figure i j ≠ 0) &&
      (decide (t.m_y + i + 1 ≥ m_height) || decide (t.m_field (t.m_y + i + 1) (t.m_x + j) ≠ 0))

/-- The two nested loops of `add_figure_to_field` and `remove_figure_from_field`,
writing `v` under every occupied figure cell that is inside the field. -/
def stamp_figure (t : Tetris) (v : Int) : Matrix :=
  (upto t.m_size).foldl (fun f i => (upto t.m_size).foldl (fun f j =>
    if t.m_figure i j ≠ 0 ∧ is_block_in_field (t.m_x + j) (t.m_y + i) = true
    then f.set (t.m_y + i) (t.m_x + j) v else f) f) t.m_field

/-- Method `add_figure_to_field`. -/
def add_figure_to_field (t : Tetris) : Tetris := { t with m_field := stamp_figure t 1 }

/-- Method `remove_figure_from_field`. -/
def remove_figure_from_field (t : Tetris) : Tetris := { t with m_field := stamp_figure t 0 }

/-- Method `render_game`, as far as the engine state goes: outside the three
message screens the figure is stamped into the field for the drawing and
removed afterwards. -/
def render_game (t : Tetris) : Tetris :=
  if t.state ≠ States.INITIAL ∧ t.state ≠ States.GAME_OVER ∧ t.state ≠ States.PAUSE
  then remove_figure_from_field (add_figure_to_field t) else t

/-- Method `is_row_full`. -/
def is_row_full (f : Matrix) (i : Int) : Bool :=
  (upto m_width).foldl (fun is_full j => if f i j = 0 then false else is_full) true

/-- The inner loops of `clear_rows`: `m_field[k][j] = m_field[k - 1][j]` for
`k = i, ..., 1` and every column `j`. -/
def shift_rows (f : Matrix) (i : Int) : Matrix :=
  (downto i).foldl (fun f k => (upto m_width).foldl (fun f j => f.set k j (f (k - 1) j)) f) f

/-- The outer loop of `clear_rows`, started at row `i`, with fuel: a full row is
replaced by the rows above it and examined again (`++i` undone by `--i`). -/
def clear_rows_loop : Nat → Int → Matrix → Option Matrix
  | 0, i, f => if i > 0 then none else some f
  | n + 1, i, f =>
    if i > 0 then
      if is_row_full f i then clear_rows_loop n (i + 1 - 1) (shift_rows f i)
      else clear_rows_loop n (i - 1) f
    else some f

/-- Fuel for `clear_rows`: twice the height.  `clear_rows_loop_fuel_stable`
shows that no larger amount changes the result. -/
def clear_rows_fuel : Nat := 2 * m_height.toNat

/-- Method `clear_rows`; no result when the loop does not end. -/
def clear_rows (t : Tetris) : Option Tetris :=
  (clear_rows_loop clear_rows_fuel (m_height - 1) t.m_field).map fun f => { t with m_field := f }

/-- Method `is_game_over`. -/
def is_game_over (t : Tetris) : Bool := decide (t.m_y ≤ 0)

/-- Method `RNG::rand` on the values the generator is still to give: the next
one, which lies in `[lo, hi]`, and the values after it. -/
def RNG.rand (rng : List Int) (lo hi : Int) : Option (Int × List Int) :=
  match rng with
  | [] => none
  | d :: ds => if lo ≤ d ∧ d ≤ hi then some (d, ds) else none

/-- The `while (count != figure_number)` loop of `create_figure` over the
tokens still unread: every token is read as a size, and those above 1 are
counted.  Returns the last size read and the unread tokens. -/
def create_figure_scan (figure_number : Int) : Int → Int → List Int → Option (Int × List Int)
  | count, size, [] => if count ≠ figure_number then none else some (size, [])
  | count, size, s :: rest =>
    if count ≠ figure_number then
      create_figure_scan figure_number (if s > 1 then count + 1 else count) s rest
    else some (size, s :: rest)

/-- The cell loops of `create_figure`: `fin >> figure[i][j]` in row-major order. -/
def create_figure_cells (size : Int) (toks : List Int) : Option (Matrix × List Int) :=
  (upto size).foldlM (fun (acc : Matrix × List Int) i =>
    (upto size).foldlM (fun (acc : Matrix × List Int) j =>
      match acc.2 with
      | [] => none
      | v :: rest => some (acc.1.set i j v, rest)) acc) (create_matrix size size, toks)

/-- What `create_figure` reads from the catalog file and the generator: the
size and the cells of the figure picked, and the generator afterwards. -/
def create_figure_read (figures_txt rng : List Int) : Option (Int × Matrix × List Int) :=
  match figures_txt with
  | [] => none
  | figure_count :: toks =>
    (RNG.rand rng 1 figure_count).bind fun (figure_number, rng) =>
    (create_figure_scan figure_number 0 0 toks).bind fun (size, toks) =>
    (create_figure_cells size toks).bind fun (figure, _) =>
    some (size, figure, rng)

/-- Method `create_figure`: sets `m_figure` and `m_size`, returns the size. -/
def create_figure (t : Tetris) : Option (Int × Tetris) :=
  (create_figure_read t.figures_txt t.rng).bind fun (size, figure, rng) =>
  some (size, { t with m_figure := figure, m_size := size, rng := rng })

/-- Method `init_game`. -/
def init_game (t : Tetris) : Option Tetris :=
  (create_figure { t with m_field := create_matrix m_height m_width }).bind fun (size, t) =>
  let t := { t with m_size := size }
  let t := { t with m_x := (m_width - t.m_size).tdiv 2 }
  some { t with m_y := 0 }

/-- Method `restart_game`. -/
def restart_game (t : Tetris) : Option Tetris :=
  (init_game t).bind fun t => some { t with state := States.INITIAL }

/-- Method `spawn_figure`. -/
def spawn_figure (t : Tetris) : Option Tetris :=
  (create_figure t).bind fun (_, t) =>
  (RNG.rand t.rng (-3) 3).bind fun (r, rng) =>
  let t := { t with m_x := (m_width - t.m_size).tdiv 2 + r, rng := rng }
  some { t with m_y := 0 }

/-- The rotation loops of `rotate_figure`, writing into a fresh matrix:
`rotated_figure[j][m_size - i - 1] = m_figure[i][j]`. -/
def rotated_figure (m_size : Int) (m_figure : Matrix) : Matrix :=
  (upto m_size).foldl (fun r i => (upto m_size).foldl (fun r j =>
    r.set j (m_size - i - 1) (m_figure i j)) r) (create_matrix m_size m_size)

/-- Method `rotate_figure`. -/
def rotate_figure (t : Tetris) : Tetris :=
  let temp_figure := t.m_figure
  let t := { t with m_figure := rotated_figure t.m_size t.m_figure }
  if !is_figure_in_field t && !is_figure_attached t then { t with m_figure := temp_figure } else t

/-- Method `move_figure_down`. -/
def move_figure_down (t : Tetris) : Tetris := { t with m_y := t.m_y + 1 }

/-- Method `move_figure_left`. -/
def move_figure_left (t : Tetris) : Tetris :=
  let t := { t with m_x := t.m_x - 1 }
  if !is_figure_in_field t || !does_figure_fit t then { t with m_x := t.m_x + 1 } else t

/-- Method `move_figure_right`. -/
def move_figure_right (t : Tetris) : Tetris :=
  let t := { t with m_x := t.m_x + 1 }
  if !is_figure_in_field t || !does_figure_fit t then { t with m_x := t.m_x - 1 } else t

/-- The call `getch()` followed by the conversion to `char`: the key code
modulo 256, so that `ERR` equals no key the program compares with. -/
def getch (t : Tetris) : Int × Tetris :=
  match t.keys with
  | [] => ((-1) % 256, t)
  | k :: ks => (k % 256, { t with keys := ks })

/-- The character `'q'`. -/
def key_q : Int := 113
/-- The character `'r'`. -/
def key_r : Int := 114
/-- The character `'p'`. -/
def key_p : Int := 112
/-- The character `'s'`. -/
def key_s : Int := 115
/-- The character `'a'`. -/
def key_a : Int := 97
/-- The character `'d'`. -/
def key_d : Int := 100
/-- The character `'w'`. -/
def key_w : Int := 119
/-- The character `'\n'`. -/
def key_enter : Int := 10

/-- The loop of `wait_for_start` over the keys still to come. -/
def wait_for_start_loop (t : Tetris) : List Int → Option Tetris
  | [] => none
  | k :: ks =>
    if k % 256 ≠ key_enter then
      if k % 256 = key_q then some { t with keys := ks } else wait_for_start_loop t ks
    else some { t with keys := ks, state := States.MOVING }

/-- Method `wait_for_start`. -/
def wait_for_start (t : Tetris) : Option Tetris := wait_for_start_loop t t.keys

/-- The loop of `wait_to_quit_or_restart` over the keys still to come. -/
def wait_to_quit_or_restart_loop (t : Tetris) : List Int → Option Tetris
  | [] => none
  | k :: ks =>
    if k % 256 ≠ key_q then
      if k % 256 = key_r ∨ k % 256 = key_enter then restart_game { t with keys := ks }
      else wait_to_quit_or_restart_loop t ks
    else some { t with keys := ks, state := States.GAME_OVER }

/-- Method `wait_to_quit_or_restart`. -/
def wait_to_quit_or_restart (t : Tetris) : Option Tetris :=
  wait_to_quit_or_restart_loop t t.keys

/-- Method `attach_figure`. -/
def attach_figure (t : Tetris) : Option Tetris :=
  (clear_rows (add_figure_to_field t)).bind fun t =>
  (if is_game_over t then wait_to_quit_or_restart (render_game { t with state := States.GAME_OVER })
   else some t).bind fun t =>
  (spawn_figure t).bind fun t =>
  some { t with state := States.MOVING }

/-- The body of `process_user_input` once the key is read. -/
def process_key (key : Int) (t : Tetris) : Option Tetris :=
  if key = key_q then some { t with state := States.GAME_OVER }
  else if key = key_r then restart_game t
  else if key = key_p then
    some { t with state := if t.state = States.PAUSE then States.MOVING else States.PAUSE }
  else if t.state = States.MOVING then
    let t :=
      if key = key_s then move_figure_down t
      else if key = key_a then move_figure_left t
      else if key = key_d then move_figure_right t
      else if key = key_w then rotate_figure t
      else t
    some (if is_figure_attached t then { t with state := States.ATTACHING } else t)
  else some t

/-- Method `process_user_input`. -/
def process_user_input (t : Tetris) : Option Tetris :=
  let (key, t) := getch t
  process_key key t

/-- Method `shift_figure`. -/
def shift_figure (t : Tetris) : Tetris :=
  let t := if !is_figure_attached t then { t with m_y := t.m_y + 1, state := States.MOVING } else t
  if is_figure_attached t then { t with state := States.ATTACHING } else t

/-- One pass through the body of the `while` loop of `play`, on the engine and
the local `count` (`max_count` is 20). -/
def play_iteration (tc : Tetris × Int) : Option (Tetris × Int) :=
  (match tc.1.state with
    | States.INITIAL => wait_for_start tc.1
    | States.MOVING => process_user_input tc.1
    | States.SHIFTING => some (shift_figure tc.1)
    | States.ATTACHING => attach_figure tc.1
    | States.PAUSE => process_user_input tc.1
    | States.GAME_OVER => some tc.1).bind fun t =>
  let tc :=
    if t.state = States.MOVING then
      if tc.2 + 1 = 20 then ({ t with state := States.SHIFTING }, 0) else (t, tc.2 + 1)
    else (t, tc.2)
  some (render_game tc.1, tc.2)

/-- The first `n` passes of the `while (state != GAME_OVER)` loop of `play`. -/
def play_loop : Nat → Tetris × Int → Option (Tetris × Int)
  | 0, tc => some tc
  | n + 1, tc => if tc.1.state ≠ States.GAME_OVER then (play_iteration tc).bind (play_loop n) else some tc

/-- The constructor `Tetris()`: `init_game` on the default member values, for
the given generator, terminal input and catalog file.  What the matrices hold
before their allocation is not read. -/
def new (rng keys figures_txt : List Int) : Option Tetris :=
  init_game { m_field := create_matrix 0 0, m_figure := create_matrix 0 0, m_size := 4,
              m_x := 0, m_y := 0, state := States.INITIAL,
              rng := rng, keys := keys, figures_txt := figures_txt }

/-- Method `process_user_input` called `n` times in a row. -/
def process_user_input_times : Nat → Tetris → Option Tetris
  | 0, t => some t
  | n + 1, t => (process_user_input t).bind (process_user_input_times n)

/-- Method `play` cut after `n` passes of its loop: the engine and `count`. -/
def play (n : Nat) (t : Tetris) : Option (Tetris × Int) := play_loop n (render_game t, 0)

/-- Every occupied cell of the figure, translated by `(m_x, m_y)`, is inside
the field. -/
def FigureInBounds (t : Tetris) : Prop :=
  ∀ i j : Int, 0 ≤ i → i < t.m_size → 0 ≤ j → j < t.m_size → t.m_figure i j ≠ 0 →
    0 ≤ t.m_x + j ∧ t.m_x + j < m_width ∧ 0 ≤ t.m_y + i ∧ t.m_y + i < m_height

/-- Every occupied cell of the figure, translated by `(m_x, m_y)`, is on an
empty field cell. -/
def FigureOnEmptyCells (t : Tetris) : Prop :=
  ∀ i j : Int, 0 ≤ i → i < t.m_size → 0 ≤ j → j < t.m_size → t.m_figure i j ≠ 0 →
    t.m_field (t.m_y + i) (t.m_x + j) = 0

/-- Some occupied cell of the figure has the floor or an occupied field cell
right below it. -/
def FigureAttached (t : Tetris) : Prop :=
  ∃ i j : Int, 0 ≤ i ∧ i < t.m_size ∧ 0 ≤ j ∧ j < t.m_size ∧ t.m_figure i j ≠ 0 ∧
    (t.m_y + i + 1 ≥ m_height ∨ t.m_field (t.m_y + i + 1) (t.m_x + j) ≠ 0)

/-- The number of full rows `k` of `f` with `r < k ≤ i`: the full rows below row
`r` (rows are counted from the top), down to row `i`. -/
def full_rows_below (f : Matrix) (r i : Nat) : Nat :=
  (List.range' 1 i).countP fun k => decide (r < k) && is_row_full f k

/-- The cell `(y, x)` of the field lies under an occupied cell of the figure. -/
def Covered (t : Tetris) (y x : Int) : Prop :=
  0 ≤ y - t.m_y ∧ y - t.m_y < t.m_size ∧ 0 ≤ x - t.m_x ∧ x - t.m_x < t.m_size ∧
    t.m_figure (y - t.m_y) (x - t.m_x) ≠ 0 ∧
    0 ≤ x ∧ x < m_width ∧ 0 ≤ y ∧ y < m_height

/-- A catalog shape, given by its size and its cells row by row, is a square
shape of size 2 to 4 with cells 0 or 1. -/
def WellFormedShape (e : Int × List Int) : Prop :=
  2 ≤ e.1 ∧ e.1 ≤ 4 ∧ (e.2.length : Int) = e.1 * e.1 ∧ ∀ c ∈ e.2, c = 0 ∨ c = 1

instance : DecidablePred WellFormedShape := fun e => by
  unfold WellFormedShape
  infer_instance

/-- The tokens of the catalog file that holds the given shapes: their number,
then for every shape its size and its cells. -/
def catalog_tokens (shapes : List (Int × List Int)) : List Int :=
  (shapes.length : Int) :: (shapes.map fun e => e.1 :: e.2).flatten

/-- The invariant of the game loop, for the catalog file `txt`: the file is
`txt`, the figure has size 2 to 4, and in the modes in which the figure is on
the screen or waiting to be (`INITIAL`, `MOVING`, `SHIFTING`, `PAUSE`) it is
inside the field. -/
def PlayInvariant (txt : List Int) (t : Tetris) : Prop :=
  t.figures_txt = txt ∧ 2 ≤ t.m_size ∧ t.m_size ≤ 4 ∧
    (t.state ≠ States.ATTACHING → t.state ≠ States.GAME_OVER → FigureInBounds t)

/-- The pairs `(i, j)` of the two nested loops over the figure, in the order of
the loops. -/
def figure_cells (n : Int) : List (Int × Int) :=
  ((upto n).map fun i => (upto n).map fun j => (i, j)).flatten

/-- Method `is_figure_attached` run over the loop pairs still to come, with the
reads `m_field[y][x]` it makes, as pairs `(y, x)` in the order of the reads.
The field is read under an occupied figure cell only, after the floor test
`y >= m_height` has failed, and the scan stops at the first `return true`. -/
def is_figure_attached_scan (t : Tetris) : List (Int × Int) → Bool × List (Int × Int)
  | [] => (false, [])
  | (i, j) :: rest =>
    if t.m_figure i j ≠ 0 then
      if t.m_y + i + 1 ≥ m_height then (true, [])
      else if t.m_field (t.m_y + i + 1) (t.m_x + j) ≠ 0 then
        (true, [(t.m_y + i + 1, t.m_x + j)])
      else ((is_figure_attached_scan t rest).1,
        (t.m_y + i + 1, t.m_x + j) :: (is_figure_attached_scan t rest).2)
    else is_figure_attached_scan t rest

/-- The reads `m_field[y][x]` of `is_figure_attached`, as pairs `(y, x)`. -/
def is_figure_attached_reads (t : Tetris) : List (Int × Int) :=
  (is_figure_attached_scan t (figure_cells t.m_size)).2

/-- The reads `m_field[y][x]` of `rotate_figure`, as pairs `(y, x)`:
`is_figure_in_field` reads no field cell, and `is_figure_attached` runs on the
rotated shape only when `is_figure_in_field` is false (`&&`). -/
def rotate_figure_reads (t : Tetris) : List (Int × Int) :=
  if is_figure_in_field { t with m_figure := rotated_figure t.m_size t.m_figure } then []
  else is_figure_attached_reads { t with m_figure := rotated_figure t.m_size t.m_figure }

/-- Row `r` of the field, as the list of its ten cells. -/
def field_row (f : Matrix) (r : Nat) : List Int :=
  (List.range m_width.toNat).map fun (x : Nat) => f (r : Int) (x : Int)

/-- The twenty rows of the field, from the top. -/
def field_rows (f : Matrix) : List (List Int) :=
  (List.range m_height.toNat).map (field_row f)

/-- A row, as a list of cells, is full: no cell is 0. -/
def row_full (r : List Int) : Bool := r.all fun c => decide (c ≠ 0)

/-- The reference compaction of a list of rows: one entirely empty row for every
full row, then the rows that are not full, in their order. -/
def reference_compaction (rows : List (List Int)) : List (List Int) :=
  List.replicate (rows.countP row_full) (List.replicate m_width.toNat 0) ++
    rows.filter fun r => !row_full r

/-- The number of occupied cells of a list of rows. -/
def occupied_cells (rows : List (List Int)) : Nat :=
  (rows.map fun r => r.countP fun c => decide (c ≠ 0)).sum

/-- A catalog entry, given by its size `s` and its cells: `s * s` cells, each 0
or 1. -/
def WellFormedEntry (e : Int × List Int) : Prop :=
  (e.2.length : Int) = e.1 * e.1 ∧ ∀ c ∈ e.2, c = 0 ∨ c = 1

instance : DecidablePred WellFormedEntry := fun e => by
  unfold WellFormedEntry
  infer_instance

/-- The tokens of the entries of a catalog: for every entry its size and its
cells row by row. -/
def entry_tokens (entries : List (Int × List Int)) : List Int :=
  (entries.map fun e => e.1 :: e.2).flatten

/-- The entries that `create_figure` counts: those of size above 1. -/
def counted_entries (entries : List (Int × List Int)) : List (Int × List Int) :=
  entries.filter fun e => decide (1 < e.1)

/-- The tokens of a well-formed catalog file: the number of entries of size
above 1, then the entries. -/
def catalog_file (entries : List (Int × List Int)) : List Int :=
  ((counted_entries entries).length : Int) :: entry_tokens entries

end Tetris

namespace Tetris

/-! ## Concrete inputs used by the examples below -/

/-- A catalog file holding one shape, the filled 2 × 2 square. -/
def catalog_square : List Int := [1, 2, 1, 1, 1, 1]

/-- The filled 2 × 2 square. -/
def square_figure : Matrix := fun i j => if 0 ≤ i ∧ i < 2 ∧ 0 ≤ j ∧ j < 2 then 1 else 0

/-- A field whose columns 4 and 5 are occupied from row 2 down to the floor. -/
def stacked_field : Matrix := fun y x => if 2 ≤ y ∧ y < 20 ∧ 4 ≤ x ∧ x < 6 then 1 else 0

/-- The square resting on the stack at the top of the field, about to be
attached, with the player pressing `q` at the prompt. -/
def top_out_state : Tetris :=
  { m_field := stacked_field, m_figure := square_figure, m_size := 2, m_x := 4, m_y := 0,
    state := States.ATTACHING, rng := [1, 0], keys := [key_q], figures_txt := catalog_square }

end Tetris

namespace Tetris

/-- A field whose rows 0 and 19 are full and whose other rows are empty. -/
def two_full_rows : Matrix := fun y _ => if y = 0 ∨ y = 19 then 1 else 0

/-- A field whose bottom row is full, with one more block in the corner of row 0. -/
def bottom_full_top_block : Matrix := fun y x => if y = 19 ∨ (y = 0 ∧ x = 0) then 1 else 0

end Tetris

namespace Tetris

/-- The states of the soft-drop scenario: a figure of size 2 at the anchor
`(x, y)` over the field `f`. -/
def soft_drop_state (f fig : Matrix) (x y : Int) (state : States)
    (rng keys figures_txt : List Int) : Tetris :=
  { m_field := f, m_figure := fig, m_size := 2, m_x := x, m_y := y, state := state,
    rng := rng, keys := keys, figures_txt := figures_txt }

end Tetris

namespace Tetris

/-- A shape of size 2 whose top row is filled. -/
def bar_figure : Matrix := fun i j => if i = 0 ∧ 0 ≤ j ∧ j < 2 then 1 else 0

/-- A shape of size 2 whose right column is filled: `bar_figure` turned clockwise. -/
def upright_figure : Matrix := fun i j => if j = 1 ∧ 0 ≤ i ∧ i < 2 then 1 else 0

/-- The bar at the top of an empty field, in mode `MOVING`. -/
def bar_state : Tetris :=
  soft_drop_state (create_matrix m_height m_width) bar_figure 4 0 States.MOVING [] [] catalog_square

/-- The square at the top of an empty field, in mode `MOVING`. -/
def square_state : Tetris :=
  soft_drop_state (create_matrix m_height m_width) square_figure 4 0 States.MOVING [] []
    catalog_square

end Tetris

namespace Tetris

/-- The square pushed one row into the stack of `stacked_field` (as the key `s`
does to a figure that rests on the stack), about to be attached: its lower row
lies on occupied cells. -/
def overlap_state : Tetris :=
  { m_field := stacked_field, m_figure := square_figure, m_size := 2, m_x := 4, m_y := 1,
    state := States.ATTACHING, rng := [1, 0], keys := [], figures_txt := catalog_square }

end Tetris

namespace Tetris

/-- The state `top_out_state` with the player pressing `r` at the prompt, and
generator values for the figure of the restart and for the next spawn. -/
def restart_state : Tetris :=
  { top_out_state with keys := [key_r], rng := [1, 1, 0] }

/-- A shape of size 3 whose middle column is filled. -/
def pole_figure : Matrix := fun i j => if j = 1 ∧ 0 ≤ i ∧ i < 3 then 1 else 0

/-- A field whose column 6 is occupied from row 5 down to the floor. -/
def wall_field : Matrix := fun y x => if x = 6 ∧ 5 ≤ y ∧ y < 20 then 1 else 0

/-- The pole falling along the wall of `wall_field`, in column 5 and rows 4 to
6, in mode `MOVING`. -/
def pole_by_wall_state : Tetris :=
  { m_field := wall_field, m_figure := pole_figure, m_size := 3, m_x := 4, m_y := 4,
    state := States.MOVING, rng := [], keys := [key_w], figures_txt := catalog_square }

/-- The pole in column 0 of an empty field (its square starts at `m_x = -1`), in
rows 4 to 6, in mode `MOVING`. -/
def pole_at_edge_state : Tetris :=
  { m_field := create_matrix m_height m_width, m_figure := pole_figure, m_size := 3, m_x := -1,
    m_y := 4, state := States.MOVING, rng := [], keys := [key_w], figures_txt := catalog_square }

end Tetris

namespace Tetris

/-- A catalog file holding one shape, the filled 5 × 5 square. -/
def catalog_five : List Int := 1 :: 5 :: List.replicate 25 1

/-- A state about to spawn from `catalog_five`, the generator giving shape 1 and
jitter -3. -/
def spawn_five_state : Tetris :=
  { m_field := create_matrix m_height m_width, m_figure := square_figure, m_size := 2, m_x := 4,
    m_y := 18, state := States.ATTACHING, rng := [1, -3], keys := [], figures_txt := catalog_five }

end Tetris

namespace Tetris

/-- The square at the top of an empty field, in mode `SHIFTING`. -/
def shifting_state : Tetris :=
  soft_drop_state (create_matrix m_height m_width) square_figure 4 0 States.SHIFTING [] []
    catalog_square

/-- A field whose row 19 is full, with one block above it in row 18. -/
def one_full_row : Matrix := fun y x => if y = 19 ∨ (y = 18 ∧ x = 0) then 1 else 0

/-- The square in mode `ATTACHING` over the field `one_full_row`. -/
def one_full_row_state : Tetris :=
  soft_drop_state one_full_row square_figure 4 5 States.ATTACHING [] [] catalog_square

/-- A catalog of four entries, two of which have a size above 1: a 1 × 1 shape,
the 2 × 2 square, an entry of size 0 and a 3 × 3 shape. -/
def catalog_entries : List (Int × List Int) :=
  [(1, [0]), (2, [1, 1, 1, 1]), (0, []), (3, [0, 1, 0, 1, 1, 1, 0, 0, 0])]

/-- A state that reads `catalog_entries`, the generator picking shape 2. -/
def catalog_state : Tetris :=
  soft_drop_state (create_matrix m_height m_width) square_figure 4 0 States.ATTACHING [2] []
    (catalog_file catalog_entries)

end Tetris
/-! ## Loops and counters -/

namespace Tetris

theorem mem_upto (n i : Int) : i ∈ upto n ↔ 0 ≤ i ∧ i < n := by
  unfold upto
  simp only [List.mem_map, List.mem_range]
  constructor
  · rintro ⟨k, hk, rfl⟩
    simp only [Int.ofNat_eq_coe]
    omega
  · rintro ⟨h0, h1⟩
    exact ⟨i.toNat, by omega, by simp only [Int.ofNat_eq_coe]; omega⟩

theorem upto_succ (k : Nat) : upto ((k : Int) + 1) = upto k ++ [(k : Int)] := by
  unfold upto
  have : ((k : Int) + 1).toNat = k + 1 := by omega
  rw [this, Int.toNat_ofNat, List.range_succ, List.map_append]
  rfl

theorem upto_toNat (n : Int) : upto n = upto (n.toNat : Int) := by
  unfold upto
  rw [Int.toNat_ofNat]

theorem is_block_in_field_iff (x y : Int) :
    is_block_in_field x y = true ↔ 0 ≤ x ∧ x < m_width ∧ 0 ≤ y ∧ y < m_height := by
  simp only [is_block_in_field, Bool.and_eq_true, decide_eq_true_eq, ge_iff_le]
  tauto

/-! ## The three tests on the figure -/

theorem is_figure_in_field_iff (t : Tetris) : is_figure_in_field t = true ↔ FigureInBounds t := by
  unfold is_figure_in_field FigureInBounds
  simp only [List.all_eq_true, mem_upto, Bool.not_eq_true', Bool.and_eq_false_imp,
    decide_eq_true_eq, Bool.not_eq_false', is_block_in_field_iff, and_imp, Bool.not_eq_eq_eq_not,
    Bool.not_true, Bool.not_false]
  constructor
  · intro h i j hi0 hi1 hj0 hj1 hne
    exact h i hi0 hi1 j hj0 hj1 hne
  · intro h i hi0 hi1 j hj0 hj1 hne
    exact h i j hi0 hi1 hj0 hj1 hne

theorem does_figure_fit_iff (t : Tetris) : does_figure_fit t = true ↔ FigureOnEmptyCells t := by
  unfold does_figure_fit FigureOnEmptyCells
  simp only [List.all_eq_true, mem_upto, Bool.not_eq_true', Bool.and_eq_false_imp,
    decide_eq_true_eq, decide_eq_false_iff_not, not_not, and_imp, ne_eq]
  constructor
  · intro h i j hi0 hi1 hj0 hj1 hne
    exact h i hi0 hi1 j hj0 hj1 hne
  · intro h i hi0 hi1 j hj0 hj1 hne
    exact h i j hi0 hi1 hj0 hj1 hne

theorem is_figure_attached_iff (t : Tetris) : is_figure_attached t = true ↔ FigureAttached t := by
  unfold is_figure_attached FigureAttached
  simp only [List.any_eq_true, mem_upto, Bool.and_eq_true, decide_eq_true_eq, Bool.or_eq_true]
  constructor
  · rintro ⟨i, ⟨hi0, hi1⟩, j, ⟨hj0, hj1⟩, hne, h⟩
    exact ⟨i, j, hi0, hi1, hj0, hj1, hne, h⟩
  · rintro ⟨i, j, hi0, hi1, hj0, hj1, hne, h⟩
    exact ⟨i, ⟨hi0, hi1⟩, j, ⟨hj0, hj1⟩, hne, h⟩

end Tetris

/-! ## Horizontal moves -/

namespace Tetris

theorem move_figure_left_of_legal (t : Tetris)
    (h : FigureInBounds { t with m_x := t.m_x - 1 } ∧ FigureOnEmptyCells { t with m_x := t.m_x - 1 }) :
    move_figure_left t = { t with m_x := t.m_x - 1 } := by
  rw [← is_figure_in_field_iff, ← does_figure_fit_iff] at h
  unfold move_figure_left
  simp [h.1, h.2]

theorem move_figure_left_of_illegal (t : Tetris)
    (h : ¬ (FigureInBounds { t with m_x := t.m_x - 1 } ∧
      FigureOnEmptyCells { t with m_x := t.m_x - 1 })) :
    move_figure_left t = t := by
  rw [← is_figure_in_field_iff, ← does_figure_fit_iff] at h
  unfold move_figure_left
  cases h1 : is_figure_in_field { t with m_x := t.m_x - 1 } <;>
    cases h2 : does_figure_fit { t with m_x := t.m_x - 1 } <;>
    simp_all [Int.sub_add_cancel]

theorem move_figure_right_of_legal (t : Tetris)
    (h : FigureInBounds { t with m_x := t.m_x + 1 } ∧ FigureOnEmptyCells { t with m_x := t.m_x + 1 }) :
    move_figure_right t = { t with m_x := t.m_x + 1 } := by
  rw [← is_figure_in_field_iff, ← does_figure_fit_iff] at h
  unfold move_figure_right
  simp [h.1, h.2]

theorem move_figure_right_of_illegal (t : Tetris)
    (h : ¬ (FigureInBounds { t with m_x := t.m_x + 1 } ∧
      FigureOnEmptyCells { t with m_x := t.m_x + 1 })) :
    move_figure_right t = t := by
  rw [← is_figure_in_field_iff, ← does_figure_fit_iff] at h
  unfold move_figure_right
  cases h1 : is_figure_in_field { t with m_x := t.m_x + 1 } <;>
    cases h2 : does_figure_fit { t with m_x := t.m_x + 1 } <;>
    simp_all [Int.add_sub_cancel]

/-- C3: `move_figure_left` ends with `m_x` one less exactly when the figure one
column to the left is inside the field and on empty cells, and with `m_x`
unchanged otherwise; `m_y`, the shape (with its size) and the field are
unchanged; the same holds for `move_figure_right` with `m_x` one more. -/
theorem move_figure_left_right_spec (t : Tetris) :
    (((move_figure_left t).m_x = t.m_x - 1 ↔
        FigureInBounds { t with m_x := t.m_x - 1 } ∧
          FigureOnEmptyCells { t with m_x := t.m_x - 1 }) ∧
      (¬ (FigureInBounds { t with m_x := t.m_x - 1 } ∧
          FigureOnEmptyCells { t with m_x := t.m_x - 1 }) → (move_figure_left t).m_x = t.m_x) ∧
      (move_figure_left t).m_y = t.m_y ∧ (move_figure_left t).m_figure = t.m_figure ∧
      (move_figure_left t).m_size = t.m_size ∧ (move_figure_left t).m_field = t.m_field) ∧
    (((move_figure_right t).m_x = t.m_x + 1 ↔
        FigureInBounds { t with m_x := t.m_x + 1 } ∧
          FigureOnEmptyCells { t with m_x := t.m_x + 1 }) ∧
      (¬ (FigureInBounds { t with m_x := t.m_x + 1 } ∧
          FigureOnEmptyCells { t with m_x := t.m_x + 1 }) → (move_figure_right t).m_x = t.m_x) ∧
      (move_figure_right t).m_y = t.m_y ∧ (move_figure_right t).m_figure = t.m_figure ∧
      (move_figure_right t).m_size = t.m_size ∧ (move_figure_right t).m_field = t.m_field) := by
  constructor
  · by_cases h : FigureInBounds { t with m_x := t.m_x - 1 } ∧
        FigureOnEmptyCells { t with m_x := t.m_x - 1 }
    · rw [move_figure_left_of_legal t h]
      simp [h]
    · rw [move_figure_left_of_illegal t h]
      simp only [h, iff_false, not_false_eq_true, imp_self, and_self, and_true]
      omega
  · by_cases h : FigureInBounds { t with m_x := t.m_x + 1 } ∧
        FigureOnEmptyCells { t with m_x := t.m_x + 1 }
    · rw [move_figure_right_of_legal t h]
      simp [h]
    · rw [move_figure_right_of_illegal t h]
      simp only [h, iff_false, not_false_eq_true, imp_self, and_self, and_true]
      omega

/-- C9: from a state whose figure is inside the field and on empty cells, a
`move_figure_left` that changed `m_x` is undone by `move_figure_right`, and a
`move_figure_right` that changed `m_x` is undone by `move_figure_left`: the
engine is back in the original state. -/
theorem move_figure_inverse (t : Tetris) (hb : FigureInBounds t) (he : FigureOnEmptyCells t) :
    ((move_figure_left t).m_x ≠ t.m_x → move_figure_right (move_figure_left t) = t) ∧
    ((move_figure_right t).m_x ≠ t.m_x → move_figure_left (move_figure_right t) = t) := by
  have e1 : ({ t with m_x := t.m_x - 1 + 1 } : Tetris) = t := by
    rw [Int.sub_add_cancel]
  have e2 : ({ t with m_x := t.m_x + 1 - 1 } : Tetris) = t := by
    rw [Int.add_sub_cancel]
  constructor
  · by_cases h : FigureInBounds { t with m_x := t.m_x - 1 } ∧
        FigureOnEmptyCells { t with m_x := t.m_x - 1 }
    · intro _
      rw [move_figure_left_of_legal t h, move_figure_right_of_legal _ (by rw [e1]; exact ⟨hb, he⟩)]
      exact e1
    · rw [move_figure_left_of_illegal t h]
      intro h'
      exact absurd rfl h'
  · by_cases h : FigureInBounds { t with m_x := t.m_x + 1 } ∧
        FigureOnEmptyCells { t with m_x := t.m_x + 1 }
    · intro _
      rw [move_figure_right_of_legal t h, move_figure_left_of_legal _ (by rw [e2]; exact ⟨hb, he⟩)]
      exact e2
    · rw [move_figure_right_of_illegal t h]
      intro h'
      exact absurd rfl h'

end Tetris

/-! ## Rotation -/

namespace Tetris

theorem upto_zero : upto 0 = [] := rfl

theorem foldl_upto_succ {α : Type} (body : α → Int → α) (init : α) (k : Nat) :
    (upto ((k : Int) + 1)).foldl body init = body ((upto k).foldl body init) k := by
  rw [upto_succ, List.foldl_append]
  rfl

/-- One row of the rotation loops: after the inner loop, column `c` holds the
values `g 0, ..., g (k - 1)` in its first `k` rows. -/
theorem foldl_set_column (c : Int) (g : Int → Int) (r0 : Matrix) (k : Nat) :
    (upto k).foldl (fun r j => r.set j c (g j)) r0 =
      fun (a b : Int) => if b = c ∧ 0 ≤ a ∧ a < (k : Int) then g a else r0 a b := by
  induction k with
  | zero =>
    funext a b
    have : ¬ (b = c ∧ 0 ≤ a ∧ a < ((0 : Nat) : Int)) := by omega
    simp only [Nat.cast_zero, upto_zero, List.foldl_nil]
    rw [if_neg (by omega)]
  | succ k ih =>
    funext a b
    rw [Nat.cast_succ, foldl_upto_succ, ih]
    unfold Matrix.set
    beta_reduce
    by_cases h1 : a = (k : Int) ∧ b = c
    · rw [if_pos h1, if_pos (by omega), h1.1]
    · rw [if_neg h1]
      by_cases h2 : b = c ∧ 0 ≤ a ∧ a < (k : Int)
      · rw [if_pos h2, if_pos (by omega)]
      · rw [if_neg h2, if_neg (by omega)]

/-- The rotation loops in closed form: `rotated[a][b] = old[n - 1 - b][a]` inside
the `n × n` square, and 0 (the fresh matrix) elsewhere. -/
theorem rotated_figure_apply (n : Int) (m : Matrix) (a b : Int) :
    rotated_figure n m a b =
      if 0 ≤ a ∧ a < n ∧ 0 ≤ b ∧ b < n then m (n - 1 - b) a else 0 := by
  have key : ∀ k : Nat, (upto k).foldl (fun r i => (upto n).foldl (fun r j =>
      Matrix.set r j (n - i - 1) (m i j)) r) (create_matrix n n) =
      fun (a b : Int) =>
        if 0 ≤ a ∧ a < n ∧ 0 ≤ n - 1 - b ∧ n - 1 - b < (k : Int) then m (n - 1 - b) a else 0 := by
    intro k
    induction k with
    | zero =>
      funext a b
      simp only [Nat.cast_zero, upto_zero, List.foldl_nil, create_matrix]
      rw [if_neg (by omega)]
    | succ k ih =>
      funext a b
      rw [Nat.cast_succ, foldl_upto_succ, ih, upto_toNat n, foldl_set_column]
      beta_reduce
      by_cases h1 : b = n - (k : Int) - 1 ∧ 0 ≤ a ∧ a < (n.toNat : Int)
      · rw [if_pos h1, if_pos (by omega)]
        have : n - 1 - b = (k : Int) := by omega
        rw [this]
      · rw [if_neg h1]
        by_cases h2 : 0 ≤ a ∧ a < n ∧ 0 ≤ n - 1 - b ∧ n - 1 - b < (k : Int)
        · rw [if_pos h2, if_pos (by omega)]
        · rw [if_neg h2, if_neg (by omega)]
  have hkey := key n.toNat
  rw [← upto_toNat n] at hkey
  unfold rotated_figure
  rw [hkey]
  beta_reduce
  by_cases h : 0 ≤ a ∧ a < n ∧ 0 ≤ b ∧ b < n
  · rw [if_pos h, if_pos (by omega)]
  · rw [if_neg h, if_neg (by omega)]

/-- C5: for every size `n` and every `n × n` shape, four applications of the
rotation loops of `rotate_figure` give back the shape, cell for cell (a cell
`0 ≤ i, j < n` exists only when `n ≥ 1`). -/
theorem rotated_figure_four (n : Int) (m : Matrix) (i j : Int)
    (hi0 : 0 ≤ i) (hi1 : i < n) (hj0 : 0 ≤ j) (hj1 : j < n) :
    rotated_figure n (rotated_figure n (rotated_figure n (rotated_figure n m))) i j = m i j := by
  simp only [rotated_figure_apply]
  rw [if_pos (by omega), if_pos (by omega), if_pos (by omega), if_pos (by omega)]
  congr 1 <;> omega

end Tetris

namespace Tetris

theorem FigureInBounds_congr (t : Tetris) (a b : Matrix)
    (hab : ∀ i j : Int, 0 ≤ i → i < t.m_size → 0 ≤ j → j < t.m_size → a i j = b i j) :
    FigureInBounds { t with m_figure := a } ↔ FigureInBounds { t with m_figure := b } := by
  unfold FigureInBounds
  dsimp only
  constructor
  · intro h i j hi0 hi1 hj0 hj1 hne
    exact h i j hi0 hi1 hj0 hj1 (by rw [hab i j hi0 hi1 hj0 hj1]; exact hne)
  · intro h i j hi0 hi1 hj0 hj1 hne
    exact h i j hi0 hi1 hj0 hj1 (by rw [← hab i j hi0 hi1 hj0 hj1]; exact hne)

theorem FigureAttached_congr (t : Tetris) (a b : Matrix)
    (hab : ∀ i j : Int, 0 ≤ i → i < t.m_size → 0 ≤ j → j < t.m_size → a i j = b i j) :
    FigureAttached { t with m_figure := a } ↔ FigureAttached { t with m_figure := b } := by
  unfold FigureAttached
  dsimp only
  constructor
  · rintro ⟨i, j, hi0, hi1, hj0, hj1, hne, h⟩
    exact ⟨i, j, hi0, hi1, hj0, hj1, by rw [← hab i j hi0 hi1 hj0 hj1]; exact hne, h⟩
  · rintro ⟨i, j, hi0, hi1, hj0, hj1, hne, h⟩
    exact ⟨i, j, hi0, hi1, hj0, hj1, by rw [hab i j hi0 hi1 hj0 hj1]; exact hne, h⟩

theorem rotate_figure_of_reject (t : Tetris)
    (h : ¬ FigureInBounds { t with m_figure := rotated_figure t.m_size t.m_figure } ∧
      ¬ FigureAttached { t with m_figure := rotated_figure t.m_size t.m_figure }) :
    rotate_figure t = t := by
  rw [← is_figure_in_field_iff, ← is_figure_attached_iff] at h
  unfold rotate_figure
  simp [h.1, h.2]

theorem rotate_figure_of_accept (t : Tetris)
    (h : ¬ (¬ FigureInBounds { t with m_figure := rotated_figure t.m_size t.m_figure } ∧
      ¬ FigureAttached { t with m_figure := rotated_figure t.m_size t.m_figure })) :
    rotate_figure t = { t with m_figure := rotated_figure t.m_size t.m_figure } := by
  rw [← is_figure_in_field_iff, ← is_figure_attached_iff] at h
  unfold rotate_figure
  cases h1 : is_figure_in_field { t with m_figure := rotated_figure t.m_size t.m_figure } <;>
    cases h2 : is_figure_attached { t with m_figure := rotated_figure t.m_size t.m_figure } <;>
    simp_all

end Tetris

/-! ## The start screen and the game-over prompt -/

namespace Tetris

/-- C7 (the code at the failing input): on the start screen built by the
constructor, the key `q` makes `wait_for_start` return with the mode still
`INITIAL`, not `GAME_OVER`. -/
theorem wait_for_start_quit_stays_initial :
    ((new [1] [key_q] catalog_square).bind wait_for_start).map (fun t => t.state)
      = some States.INITIAL := by
  decide

/-- C6 (the code at the failing input): with the square attached at `m_y = 0` and
`q` pressed at the game-over prompt, `attach_figure` returns in mode `MOVING`,
not `GAME_OVER`. -/
theorem attach_figure_quit_keeps_playing :
    is_game_over top_out_state = true ∧
    (attach_figure top_out_state).map (fun t => t.state) = some States.MOVING := by
  decide

end Tetris

/-! ## Rows: `is_row_full`, the shift, and the loop of `clear_rows` -/

namespace Tetris

theorem foldl_flag (L : List Int) (p : Int → Prop) [DecidablePred p] (b : Bool) :
    L.foldl (fun is_full j => if p j then false else is_full) b
      = (b && L.all (fun j => !decide (p j))) := by
  induction L generalizing b with
  | nil => simp
  | cons a L ih =>
    rw [List.foldl_cons, ih, List.all_cons]
    by_cases h : p a <;> simp [h]

/-- A row is full when none of its ten cells is 0. -/
theorem is_row_full_iff (f : Matrix) (i : Int) :
    is_row_full f i = true ↔ ∀ j : Int, 0 ≤ j → j < m_width → f i j ≠ 0 := by
  unfold is_row_full
  rw [foldl_flag]
  simp only [Bool.true_and, List.all_eq_true, mem_upto, Bool.not_eq_true', decide_eq_false_iff_not,
    and_imp, ne_eq]

/-- Copying row `k - 1` into row `k`, column by column. -/
theorem foldl_copy_row (k : Int) (f : Matrix) (w : Nat) :
    (upto w).foldl (fun f j => Matrix.set f k j (f (k - 1) j)) f =
      fun (y x : Int) => if y = k ∧ 0 ≤ x ∧ x < (w : Int) then f (k - 1) x else f y x := by
  induction w with
  | zero =>
    funext y x
    simp only [Nat.cast_zero, upto_zero, List.foldl_nil]
    rw [if_neg (by omega)]
  | succ w ih =>
    funext y x
    rw [Nat.cast_succ, foldl_upto_succ, ih]
    unfold Matrix.set
    beta_reduce
    have hk : ¬ (k - 1 = k ∧ 0 ≤ (w : Int) ∧ (w : Int) < (w : Int)) := by omega
    rw [if_neg hk]
    by_cases h1 : y = k ∧ x = (w : Int)
    · rw [if_pos h1, if_pos (by omega), h1.2]
    · rw [if_neg h1]
      by_cases h2 : y = k ∧ 0 ≤ x ∧ x < (w : Int)
      · rw [if_pos h2, if_pos (by omega)]
      · rw [if_neg h2, if_neg (by omega)]

theorem downto_succ (k : Nat) : downto ((k : Int) + 1) = ((k : Int) + 1) :: downto k := by
  unfold downto
  have : ((k : Int) + 1).toNat = k + 1 := by omega
  rw [this, Int.toNat_ofNat, List.range_succ, List.reverse_append, List.reverse_singleton,
    List.singleton_append, List.map_cons]
  rfl

theorem downto_toNat (i : Int) : downto i = downto (i.toNat : Int) := by
  unfold downto
  rw [Int.toNat_ofNat]

/-- The shift in closed form: rows `1, ..., i` receive the rows `0, ..., i - 1`;
nothing else changes. -/
theorem shift_rows_apply (f : Matrix) (i y x : Int) :
    shift_rows f i y x =
      if 1 ≤ y ∧ y ≤ i ∧ 0 ≤ x ∧ x < m_width then f (y - 1) x else f y x := by
  have key : ∀ (k : Nat) (f : Matrix),
      (downto k).foldl (fun f k => (upto m_width).foldl
        (fun f j => Matrix.set f k j (f (k - 1) j)) f) f =
      fun (y x : Int) => if 1 ≤ y ∧ y ≤ (k : Int) ∧ 0 ≤ x ∧ x < m_width then f (y - 1) x
        else f y x := by
    intro k
    induction k with
    | zero =>
      intro f
      funext y x
      have : downto ((0 : Nat) : Int) = [] := rfl
      rw [this, List.foldl_nil, if_neg (by omega)]
    | succ k ih =>
      intro f
      funext y x
      have hw : upto m_width = upto ((10 : Nat) : Int) := rfl
      rw [Nat.cast_succ, downto_succ, List.foldl_cons, ih, hw, foldl_copy_row]
      have hm : m_width = 10 := rfl
      rw [hm]
      beta_reduce
      by_cases h1 : 1 ≤ y ∧ y ≤ (k : Int) ∧ 0 ≤ x ∧ x < 10
      · rw [if_pos h1, if_neg (by omega), if_pos (by omega)]
      · rw [if_neg h1]
        by_cases h2 : y = (k : Int) + 1 ∧ 0 ≤ x ∧ x < ((10 : Nat) : Int)
        · rw [if_pos h2, if_pos (by omega), h2.1]
        · rw [if_neg h2, if_neg (by omega)]
  unfold shift_rows
  rw [downto_toNat, key]
  beta_reduce
  by_cases h : 1 ≤ y ∧ y ≤ i ∧ 0 ≤ x ∧ x < m_width
  · rw [if_pos h, if_pos (by omega)]
  · rw [if_neg h, if_neg (by omega)]

/-- After the shift at row `i`, row `y` with `1 ≤ y ≤ i` is full exactly when row
`y - 1` was. -/
theorem is_row_full_shift_rows_moved (f : Matrix) (i y : Int) (h1 : 1 ≤ y) (h2 : y ≤ i) :
    is_row_full (shift_rows f i) y = is_row_full f (y - 1) := by
  rw [Bool.eq_iff_iff, is_row_full_iff, is_row_full_iff]
  constructor
  · intro h j hj0 hj1
    have := h j hj0 hj1
    rwa [shift_rows_apply, if_pos ⟨h1, h2, hj0, hj1⟩] at this
  · intro h j hj0 hj1
    rw [shift_rows_apply, if_pos ⟨h1, h2, hj0, hj1⟩]
    exact h j hj0 hj1

/-- The shift at row `i` leaves row 0 and the rows below `i` as they were. -/
theorem shift_rows_apply_other (f : Matrix) (i y x : Int) (h : y < 1 ∨ i < y) :
    shift_rows f i y x = f y x := by
  rw [shift_rows_apply, if_neg (by omega)]

theorem is_row_full_shift_rows_other (f : Matrix) (i y : Int) (h : y < 1 ∨ i < y) :
    is_row_full (shift_rows f i) y = is_row_full f y := by
  rw [Bool.eq_iff_iff, is_row_full_iff, is_row_full_iff]
  constructor
  · intro h' j hj0 hj1
    have := h' j hj0 hj1
    rwa [shift_rows_apply_other f i y j h] at this
  · intro h' j hj0 hj1
    rw [shift_rows_apply_other f i y j h]
    exact h' j hj0 hj1

end Tetris

namespace Tetris

theorem full_rows_below_zero (f : Matrix) (r : Nat) : full_rows_below f r 0 = 0 := rfl

theorem full_rows_below_succ (f : Matrix) (r i : Nat) :
    full_rows_below f r (i + 1) =
      full_rows_below f r i + if r < i + 1 ∧ is_row_full f ((i + 1 : Nat) : Int) = true then 1 else 0 := by
  unfold full_rows_below
  rw [List.range'_1_concat, List.countP_append, List.countP_singleton, Nat.add_comm 1 i]
  simp only [Bool.and_eq_true, decide_eq_true_eq]

theorem full_rows_below_le (f : Matrix) (r i : Nat) : full_rows_below f r i ≤ i := by
  induction i with
  | zero => rw [full_rows_below_zero]
  | succ i ih =>
    rw [full_rows_below_succ]
    split_ifs <;> omega

theorem full_rows_below_of_le (f : Matrix) (r i : Nat) (h : i ≤ r) : full_rows_below f r i = 0 := by
  induction i with
  | zero => rw [full_rows_below_zero]
  | succ i ih =>
    rw [full_rows_below_succ, ih (by omega), if_neg (by omega)]

/-- Counting after the shift at row `i`: the rows `r + 1 < k ≤ m` of the shifted
field are the rows `r < k ≤ m - 1` of the field. -/
theorem full_rows_below_shift_rows (f : Matrix) (i r m : Nat) (hm : m + 1 ≤ i) :
    full_rows_below (shift_rows f i) (r + 1) (m + 1) = full_rows_below f r m := by
  induction m with
  | zero =>
    rw [full_rows_below_succ, full_rows_below_zero, full_rows_below_zero, if_neg (by omega)]
  | succ m ih =>
    rw [full_rows_below_succ, ih (by omega), full_rows_below_succ f r m,
      is_row_full_shift_rows_moved f i _ (by omega) (by omega)]
    have e : (((m + 1 + 1 : Nat) : Int) - 1) = ((m + 1 : Nat) : Int) := by omega
    rw [e]
    by_cases h : r < m + 1 ∧ is_row_full f ((m + 1 : Nat) : Int) = true
    · rw [if_pos h, if_pos ⟨by omega, h.2⟩]
    · rw [if_neg h, if_neg (fun h' => h ⟨by omega, h'.2⟩)]

/-- Counting from the top after the shift at row `i`, when row 0 is not full. -/
theorem full_rows_below_shift_rows_top (f : Matrix) (i m : Nat) (hm : m + 1 ≤ i)
    (h0 : is_row_full f 0 = false) :
    full_rows_below (shift_rows f i) 0 (m + 1) = full_rows_below f 0 m := by
  induction m with
  | zero =>
    rw [full_rows_below_succ, full_rows_below_zero, full_rows_below_zero,
      is_row_full_shift_rows_moved f i _ (by omega) (by omega)]
    have e : (((0 + 1 : Nat) : Int) - 1) = 0 := by omega
    rw [e, h0]
    simp
  | succ m ih =>
    rw [full_rows_below_succ, ih (by omega), full_rows_below_succ f 0 m,
      is_row_full_shift_rows_moved f i _ (by omega) (by omega)]
    have e : (((m + 1 + 1 : Nat) : Int) - 1) = ((m + 1 : Nat) : Int) := by omega
    rw [e]
    by_cases h : is_row_full f ((m + 1 : Nat) : Int) = true
    · rw [if_pos ⟨by omega, h⟩, if_pos ⟨by omega, h⟩]
    · rw [if_neg (fun h' => h h'.2), if_neg (fun h' => h h'.2)]

end Tetris

namespace Tetris

theorem clear_rows_loop_zero_row (fuel : Nat) (f : Matrix) : clear_rows_loop fuel 0 f = some f := by
  cases fuel <;> simp [clear_rows_loop]

theorem clear_rows_loop_not_full (n i : Nat) (f : Matrix)
    (h : is_row_full f ((i + 1 : Nat) : Int) = false) :
    clear_rows_loop (n + 1) ((i + 1 : Nat) : Int) f = clear_rows_loop n (i : Int) f := by
  have e : ((i + 1 : Nat) : Int) - 1 = (i : Int) := by omega
  rw [clear_rows_loop, if_pos (by omega), h, e]
  simp

theorem clear_rows_loop_full (n i : Nat) (f : Matrix)
    (h : is_row_full f ((i + 1 : Nat) : Int) = true) :
    clear_rows_loop (n + 1) ((i + 1 : Nat) : Int) f =
      clear_rows_loop n ((i + 1 : Nat) : Int) (shift_rows f ((i + 1 : Nat) : Int)) := by
  have e : ((i + 1 : Nat) : Int) + 1 - 1 = ((i + 1 : Nat) : Int) := by omega
  rw [clear_rows_loop, if_pos (by omega), h, e]
  simp

/-- The loop of `clear_rows` from row `i`, on a field whose row 0 is not full:
with fuel for `i` steps up and one more per full row it ends; the rows below
`i` and all cells outside the columns are untouched; every row `r ≤ i` that is
not full ends `full_rows_below f r i` rows further down; and the rows vacated
at the top hold copies of row 0. -/
theorem clear_rows_loop_spec (fuel : Nat) : ∀ (i : Nat) (f : Matrix),
    is_row_full f 0 = false → i + full_rows_below f 0 i ≤ fuel →
    ∃ g, clear_rows_loop fuel (i : Int) f = some g ∧
      (∀ y x : Int, (y < 0 ∨ (i : Int) < y ∨ x < 0 ∨ m_width ≤ x) → g y x = f y x) ∧
      (∀ r : Nat, r ≤ i → is_row_full f (r : Int) = false → ∀ x : Int, 0 ≤ x → x < m_width →
        g ((r + full_rows_below f r i : Nat) : Int) x = f (r : Int) x) ∧
      (∀ k : Nat, k < full_rows_below f 0 i → ∀ x : Int, 0 ≤ x → x < m_width →
        g (k : Int) x = f 0 x) := by
  induction fuel with
  | zero =>
    intro i f _ hfuel
    have hi : i = 0 := by omega
    subst hi
    refine ⟨f, clear_rows_loop_zero_row 0 f, fun _ _ _ => rfl, ?_, ?_⟩
    · intro r hr _ x _ _
      have : r = 0 := by omega
      subst this
      rfl
    · intro k hk
      rw [full_rows_below_zero] at hk
      omega
  | succ n ih =>
    intro i f h0 hfuel
    cases i with
    | zero =>
      refine ⟨f, clear_rows_loop_zero_row _ f, fun _ _ _ => rfl, ?_, ?_⟩
      · intro r hr _ x _ _
        have : r = 0 := by omega
        subst this
        rfl
      · intro k hk
        rw [full_rows_below_zero] at hk
        omega
    | succ i =>
      cases hfull : is_row_full f ((i + 1 : Nat) : Int) with
      | false =>
        have hstep : ∀ r : Nat, full_rows_below f r (i + 1) = full_rows_below f r i := by
          intro r
          rw [full_rows_below_succ, if_neg (by rw [hfull]; simp), Nat.add_zero]
        rw [hstep 0] at hfuel
        obtain ⟨g, hg, hout, hrows, htop⟩ := ih i f h0 (by omega)
        refine ⟨g, by rw [clear_rows_loop_not_full n i f hfull]; exact hg, ?_, ?_, ?_⟩
        · intro y x hyx
          exact hout y x (by omega)
        · intro r hr hnf x hx0 hx1
          rw [hstep r]
          by_cases hri : r ≤ i
          · exact hrows r hri hnf x hx0 hx1
          · have hr' : r = i + 1 := by omega
            subst hr'
            rw [full_rows_below_of_le f (i + 1) i (by omega), Nat.add_zero]
            exact hout _ x (by omega)
        · intro k hk x hx0 hx1
          rw [hstep 0] at hk
          exact htop k hk x hx0 hx1
      | true =>
        have hcount : full_rows_below f 0 (i + 1) = full_rows_below f 0 i + 1 := by
          rw [full_rows_below_succ, if_pos ⟨by omega, hfull⟩]
        have htopcount : full_rows_below (shift_rows f ((i + 1 : Nat) : Int)) 0 (i + 1)
            = full_rows_below f 0 i :=
          full_rows_below_shift_rows_top f (i + 1) i (by omega) h0
        have h0' : is_row_full (shift_rows f ((i + 1 : Nat) : Int)) 0 = false := by
          rw [is_row_full_shift_rows_other f _ 0 (by omega)]
          exact h0
        obtain ⟨g, hg, hout, hrows, htop⟩ :=
          ih (i + 1) (shift_rows f ((i + 1 : Nat) : Int)) h0' (by omega)
        refine ⟨g, by rw [clear_rows_loop_full n i f hfull]; exact hg, ?_, ?_, ?_⟩
        · intro y x hyx
          rw [hout y x hyx]
          by_cases hx : 0 ≤ x ∧ x < m_width
          · exact shift_rows_apply_other f _ y x (by omega)
          · rw [shift_rows_apply, if_neg (by omega)]
        · intro r hr hnf x hx0 hx1
          have hri : r ≤ i := by
            by_contra hcon
            have hr' : r = i + 1 := by omega
            subst hr'
            rw [hfull] at hnf
            exact Bool.noConfusion hnf
          have hmoved : is_row_full (shift_rows f ((i + 1 : Nat) : Int)) ((r + 1 : Nat) : Int)
              = false := by
            rw [is_row_full_shift_rows_moved f _ _ (by omega) (by omega)]
            have e : ((r + 1 : Nat) : Int) - 1 = (r : Int) := by omega
            rw [e]
            exact hnf
          have hthis := hrows (r + 1) (by omega) hmoved x hx0 hx1
          rw [full_rows_below_shift_rows f (i + 1) r i (by omega), shift_rows_apply,
            if_pos ⟨by omega, by omega, hx0, hx1⟩] at hthis
          have e : ((r + 1 : Nat) : Int) - 1 = (r : Int) := by omega
          rw [e] at hthis
          have hcnt : full_rows_below f r (i + 1) = full_rows_below f r i + 1 := by
            rw [full_rows_below_succ, if_pos ⟨by omega, hfull⟩]
          rw [hcnt]
          have e2 : r + (full_rows_below f r i + 1) = r + 1 + full_rows_below f r i := by omega
          rw [e2]
          exact hthis
        · intro k hk x hx0 hx1
          rw [hcount] at hk
          by_cases hk' : k < full_rows_below f 0 i
          · have hthis := htop k (by rw [htopcount]; exact hk') x hx0 hx1
            rw [hthis]
            exact shift_rows_apply_other f _ 0 x (by omega)
          · have hk'' : k = full_rows_below f 0 i := by omega
            have hthis := hrows 0 (by omega) h0' x hx0 hx1
            rw [htopcount, Nat.zero_add] at hthis
            rw [hk'', hthis]
            exact shift_rows_apply_other f _ 0 x (by omega)

end Tetris

namespace Tetris

/-- More fuel does not change a result of the loop. -/
theorem clear_rows_loop_mono (n : Nat) : ∀ (k : Nat) (i : Int) (f g : Matrix),
    clear_rows_loop n i f = some g → clear_rows_loop (n + k) i f = some g := by
  induction n with
  | zero =>
    intro k i f g h
    rw [clear_rows_loop] at h
    by_cases hi : i > 0
    · rw [if_pos hi] at h
      exact Option.noConfusion h
    · rw [if_neg hi] at h
      cases k with
      | zero => rw [clear_rows_loop, if_neg hi]; exact h
      | succ k => rw [Nat.zero_add, clear_rows_loop, if_neg hi]; exact h
  | succ n ih =>
    intro k i f g h
    have e : n + 1 + k = (n + k) + 1 := by omega
    rw [e, clear_rows_loop]
    rw [clear_rows_loop] at h
    by_cases hi : i > 0
    · rw [if_pos hi] at h
      rw [if_pos hi]
      cases hfull : is_row_full f i with
      | true =>
        rw [hfull] at h
        simp only [if_true] at h
        simp only [if_true]
        exact ih k _ _ g h
      | false =>
        rw [hfull] at h
        simp only [Bool.false_eq_true, if_false] at h
        simp only [Bool.false_eq_true, if_false]
        exact ih k _ _ g h
    · rw [if_neg hi] at h
      rw [if_neg hi]
      exact h

/-- When no row from 1 to `i` is full, the loop from row `i` ends after `i`
steps and leaves the field as it is. -/
theorem clear_rows_loop_of_no_full (fuel : Nat) : ∀ (i : Nat) (f : Matrix),
    (∀ r : Nat, 1 ≤ r → r ≤ i → is_row_full f (r : Int) = false) → i ≤ fuel →
    clear_rows_loop fuel (i : Int) f = some f := by
  induction fuel with
  | zero =>
    intro i f _ hi
    have : i = 0 := by omega
    subst this
    exact clear_rows_loop_zero_row 0 f
  | succ n ih =>
    intro i f h hi
    cases i with
    | zero => exact clear_rows_loop_zero_row _ f
    | succ i =>
      rw [clear_rows_loop_not_full n i f (h (i + 1) (by omega) (by omega))]
      exact ih i f (fun r hr1 hr2 => h r hr1 (by omega)) (by omega)

/-- With row 0 full and another full row at or above row `i`, the loop from row
`i` never ends: the copies of row 0 that the shift pulls down are full again. -/
theorem clear_rows_loop_diverges (fuel : Nat) : ∀ (i : Nat) (f : Matrix),
    is_row_full f 0 = true → (∃ r : Nat, 1 ≤ r ∧ r ≤ i ∧ is_row_full f (r : Int) = true) →
    clear_rows_loop fuel (i : Int) f = none := by
  induction fuel with
  | zero =>
    intro i f _ ⟨r, hr1, hr2, _⟩
    rw [clear_rows_loop, if_pos (by omega)]
  | succ n ih =>
    intro i f h0 ⟨r, hr1, hr2, hr⟩
    cases i with
    | zero => omega
    | succ i =>
      cases hfull : is_row_full f ((i + 1 : Nat) : Int) with
      | true =>
        rw [clear_rows_loop_full n i f hfull]
        refine ih (i + 1) _ ?_ ⟨1, by omega, by omega, ?_⟩
        · rw [is_row_full_shift_rows_other f _ 0 (by omega)]
          exact h0
        · rw [is_row_full_shift_rows_moved f _ _ (by omega) (by omega)]
          have e : ((1 : Nat) : Int) - 1 = 0 := by omega
          rw [e]
          exact h0
      | false =>
        rw [clear_rows_loop_not_full n i f hfull]
        refine ih i f h0 ⟨r, hr1, ?_, hr⟩
        by_contra hcon
        have : r = i + 1 := by omega
        subst this
        rw [hfull] at hr
        exact Bool.noConfusion hr

/-- The fuel of `clear_rows` is enough: whatever the field, no larger amount of
fuel changes the outcome of the loop, be it a field or no result. -/
theorem clear_rows_loop_fuel_stable (f : Matrix) (n : Nat) (hn : clear_rows_fuel ≤ n) :
    clear_rows_loop n (m_height - 1) f = clear_rows_loop clear_rows_fuel (m_height - 1) f := by
  have hh : m_height - 1 = ((19 : Nat) : Int) := rfl
  have hf : clear_rows_fuel = 40 := rfl
  rw [hh]
  obtain ⟨k, rfl⟩ : ∃ k, n = clear_rows_fuel + k := ⟨n - clear_rows_fuel, by omega⟩
  cases h0 : is_row_full f 0 with
  | false =>
    have hle := full_rows_below_le f 0 19
    obtain ⟨g, hg, -⟩ := clear_rows_loop_spec clear_rows_fuel 19 f h0 (by omega)
    rw [hg]
    exact clear_rows_loop_mono _ k _ f g hg
  | true =>
    by_cases hex : ∃ r : Nat, 1 ≤ r ∧ r ≤ 19 ∧ is_row_full f (r : Int) = true
    · rw [clear_rows_loop_diverges _ 19 f h0 hex, clear_rows_loop_diverges _ 19 f h0 hex]
    · have hno : ∀ r : Nat, 1 ≤ r → r ≤ 19 → is_row_full f (r : Int) = false := by
        intro r hr1 hr2
        cases hr : is_row_full f (r : Int) with
        | false => rfl
        | true => exact absurd ⟨r, hr1, hr2, hr⟩ hex
      have hg := clear_rows_loop_of_no_full clear_rows_fuel 19 f hno (by omega)
      rw [hg]
      exact clear_rows_loop_mono _ k _ f f hg

end Tetris

namespace Tetris

theorem full_rows_below_eq_zero (f : Matrix) (r i : Nat)
    (h : ∀ k : Nat, r < k → k ≤ i → is_row_full f (k : Int) = false) :
    full_rows_below f r i = 0 := by
  induction i with
  | zero => rw [full_rows_below_zero]
  | succ i ih =>
    rw [full_rows_below_succ, ih (fun k hk1 hk2 => h k hk1 (by omega))]
    by_cases hr : r < i + 1
    · rw [if_neg (by rw [h (i + 1) hr (by omega)]; simp)]
    · rw [if_neg (fun h' => hr h'.1)]

theorem is_row_full_of_empty_cell (f : Matrix) (i x : Int) (hx0 : 0 ≤ x) (hx1 : x < m_width)
    (h : f i x = 0) : is_row_full f i = false := by
  cases hfull : is_row_full f i with
  | false => rfl
  | true => exact absurd h ((is_row_full_iff f i).1 hfull x hx0 hx1)

end Tetris

/-! ## The reference compaction -/

namespace Tetris

theorem row_full_field_row (f : Matrix) (r : Nat) :
    row_full (field_row f r) = is_row_full f (r : Int) := by
  rw [Bool.eq_iff_iff, is_row_full_iff]
  unfold row_full field_row
  have hn : m_width.toNat = 10 := rfl
  have hw : m_width = 10 := rfl
  rw [hn, hw]
  simp only [List.all_eq_true, List.mem_map, List.mem_range, decide_eq_true_eq,
    forall_exists_index, and_imp]
  constructor
  · intro h j hj0 hj1
    have := h (f (r : Int) j) j.toNat (by omega) (by
      have e : ((j.toNat : Nat) : Int) = j := by omega
      rw [e])
    exact this
  · intro h c x hx hc
    rw [← hc]
    exact h x (by omega) (by omega)

/-- The rows `0, ..., n - 1` of the field. -/
theorem field_rows_eq (f : Matrix) : field_rows f = (List.range 20).map (field_row f) := rfl

theorem map_range_succ_last {α : Type} (g : Nat → α) (n : Nat) :
    (List.range (n + 1)).map g = (List.range n).map g ++ [g n] := by
  rw [List.range_succ, List.map_append, List.map_singleton]

theorem map_range_succ_first {α : Type} (g : Nat → α) (n : Nat) :
    (List.range (n + 1)).map g = g 0 :: (List.range n).map fun r => g (r + 1) := by
  rw [List.range_succ_eq_map, List.map_cons, List.map_map]
  rfl

theorem field_row_congr (f g : Matrix) (r r' : Nat)
    (h : ∀ x : Int, 0 ≤ x → x < m_width → g (r' : Int) x = f (r : Int) x) :
    field_row g r' = field_row f r := by
  unfold field_row
  apply List.map_congr_left
  intro x hx
  rw [List.mem_range] at hx
  have hw : m_width = 10 := rfl
  have hn : m_width.toNat = 10 := rfl
  exact h x (by omega) (by rw [hw]; omega)

/-- After the shift at row `i`, the rows `0, ..., i` are row 0 followed by the
rows `0, ..., i - 1` of before. -/
theorem rows_shift_rows (f : Matrix) (i : Nat) :
    (List.range (i + 1)).map (field_row (shift_rows f (i : Int))) =
      field_row f 0 :: (List.range i).map (field_row f) := by
  rw [map_range_succ_first]
  congr 1
  · exact field_row_congr f _ 0 0 (fun x _ _ => shift_rows_apply_other f _ _ x (by omega))
  · apply List.map_congr_left
    intro r hr
    rw [List.mem_range] at hr
    refine field_row_congr f _ r (r + 1) (fun x hx0 hx1 => ?_)
    rw [shift_rows_apply, if_pos ⟨by omega, by omega, hx0, hx1⟩]
    congr 1
    omega

/-- The loop of `clear_rows` from row `i`, on the rows as lists: when it ends on
a field whose row 0 is not full, the rows `0, ..., i` are the reference
compaction with copies of row 0 as the rows on top, and the rows below `i`
are untouched. -/
theorem clear_rows_loop_rows (fuel : Nat) : ∀ (i : Nat) (f g : Matrix),
    is_row_full f 0 = false → clear_rows_loop fuel (i : Int) f = some g →
    (List.range (i + 1)).map (field_row g) =
      List.replicate (((List.range (i + 1)).map (field_row f)).countP row_full) (field_row f 0) ++
        ((List.range (i + 1)).map (field_row f)).filter (fun r => !row_full r) ∧
    ∀ r : Nat, i < r → field_row g r = field_row f r := by
  have hbase : ∀ f : Matrix, is_row_full f 0 = false →
      (List.range (0 + 1)).map (field_row f) =
      List.replicate (((List.range (0 + 1)).map (field_row f)).countP row_full) (field_row f 0) ++
        ((List.range (0 + 1)).map (field_row f)).filter (fun r => !row_full r) := by
    intro f h0
    have hr0 : row_full (field_row f 0) = false := by
      rw [row_full_field_row]
      exact h0
    have e : List.range (0 + 1) = [0] := rfl
    rw [e]
    simp [hr0]
  induction fuel with
  | zero =>
    intro i f g h0 h
    rw [clear_rows_loop] at h
    by_cases hi : (i : Int) > 0
    · rw [if_pos hi] at h
      exact Option.noConfusion h
    · rw [if_neg hi] at h
      simp only [Option.some.injEq] at h
      have : i = 0 := by omega
      subst this
      rw [← h]
      exact ⟨hbase f h0, fun _ _ => rfl⟩
  | succ n ih =>
    intro i f g h0 h
    cases i with
    | zero =>
      rw [Nat.cast_zero, clear_rows_loop_zero_row] at h
      simp only [Option.some.injEq] at h
      rw [← h]
      exact ⟨hbase f h0, fun _ _ => rfl⟩
    | succ i =>
      cases hfull : is_row_full f ((i + 1 : Nat) : Int) with
      | false =>
        rw [clear_rows_loop_not_full n i f hfull] at h
        obtain ⟨h1, h2⟩ := ih i f g h0 h
        have hrf : row_full (field_row f (i + 1)) = false := by
          rw [row_full_field_row]
          exact hfull
        refine ⟨?_, fun r hr => h2 r (by omega)⟩
        rw [map_range_succ_last (field_row g), map_range_succ_last (field_row f), h1,
          h2 (i + 1) (by omega), List.countP_append, List.filter_append, List.countP_singleton,
          if_neg (by rw [hrf]; exact Bool.false_ne_true), Nat.add_zero, List.append_assoc]
        congr 2
        simp [hrf]
      | true =>
        rw [clear_rows_loop_full n i f hfull] at h
        have h0' : is_row_full (shift_rows f ((i + 1 : Nat) : Int)) 0 = false := by
          rw [is_row_full_shift_rows_other f _ 0 (by omega)]
          exact h0
        obtain ⟨h1, h2⟩ := ih (i + 1) _ g h0' h
        have hrf : row_full (field_row f (i + 1)) = true := by
          rw [row_full_field_row]
          exact hfull
        have hr0 : row_full (field_row f 0) = false := by
          rw [row_full_field_row]
          exact h0
        have hrow0 : field_row (shift_rows f ((i + 1 : Nat) : Int)) 0 = field_row f 0 :=
          field_row_congr f _ 0 0 (fun x _ _ => shift_rows_apply_other f _ _ x (by omega))
        constructor
        · rw [h1, rows_shift_rows f (i + 1), hrow0, map_range_succ_last (field_row f) (i + 1),
            List.countP_append, List.filter_append, List.countP_singleton, if_pos hrf,
            List.countP_cons_of_neg _ _ (by rw [hr0]; exact Bool.false_ne_true),
            List.filter_cons_of_pos (by rw [hr0]; rfl), List.replicate_succ',
            List.append_assoc]
          simp [hrf]
        · intro r hr
          rw [h2 r hr]
          exact field_row_congr f _ r r (fun x _ _ => shift_rows_apply_other f _ _ x
            (by omega))

end Tetris

namespace Tetris

theorem field_row_length (f : Matrix) (r : Nat) : (field_row f r).length = 10 := by
  unfold field_row
  rw [List.length_map, List.length_range]
  rfl

theorem occupied_cells_nil : occupied_cells [] = 0 := rfl

theorem occupied_cells_cons (r : List Int) (rows : List (List Int)) :
    occupied_cells (r :: rows) = (r.countP fun c => decide (c ≠ 0)) + occupied_cells rows := by
  unfold occupied_cells
  rw [List.map_cons, List.sum_cons]

theorem occupied_cells_append (a b : List (List Int)) :
    occupied_cells (a ++ b) = occupied_cells a + occupied_cells b := by
  induction a with
  | nil => rw [List.nil_append, occupied_cells_nil, Nat.zero_add]
  | cons r a ih => rw [List.cons_append, occupied_cells_cons, occupied_cells_cons, ih, Nat.add_assoc]

theorem occupied_cells_empty_rows (n w : Nat) :
    occupied_cells (List.replicate n (List.replicate w 0)) = 0 := by
  induction n with
  | zero => rfl
  | succ n ih =>
    rw [List.replicate_succ, occupied_cells_cons, ih, List.countP_replicate]
    simp

/-- Among rows of ten cells, every full row holds ten occupied cells: the
occupied cells are those of the rows that are not full plus ten per full row. -/
theorem occupied_cells_split (rows : List (List Int)) (hlen : ∀ r ∈ rows, r.length = 10) :
    occupied_cells rows =
      occupied_cells (rows.filter fun r => !row_full r) + 10 * rows.countP row_full := by
  induction rows with
  | nil => rfl
  | cons r rows ih =>
    have ih' := ih (fun r' hr' => hlen r' (List.mem_cons_of_mem r hr'))
    rw [occupied_cells_cons, ih']
    cases hf : row_full r with
    | true =>
      have hcount : (r.countP fun c => decide (c ≠ 0)) = 10 := by
        rw [← hlen r (List.mem_cons_self r rows), List.countP_eq_length]
        unfold row_full at hf
        rw [List.all_eq_true] at hf
        exact hf
      rw [List.filter_cons_of_neg (by rw [hf]; simp), List.countP_cons_of_pos _ _ hf, hcount]
      omega
    | false =>
      rw [List.filter_cons_of_pos (by rw [hf]; rfl),
        List.countP_cons_of_neg _ _ (by rw [hf]; exact Bool.false_ne_true), occupied_cells_cons]
      omega

/-- C18: on every field whose row 0 is entirely empty `clear_rows` ends, and the
rows of its result are the reference compaction of the rows of the input: one
entirely empty row per full row, then the rows that are not full in their
order.  So no row of the result is full, and the number of occupied cells
drops by ten times the number of full rows. -/
theorem clear_rows_reference (t : Tetris)
    (h0 : ∀ x : Int, 0 ≤ x → x < m_width → t.m_field 0 x = 0) :
    ∃ g : Matrix, clear_rows t = some { t with m_field := g } ∧
      field_rows g = reference_compaction (field_rows t.m_field) ∧
      (∀ r : Nat, r < 20 → is_row_full g (r : Int) = false) ∧
      occupied_cells (field_rows g) + 10 * (field_rows t.m_field).countP row_full
        = occupied_cells (field_rows t.m_field) := by
  have hnf : is_row_full t.m_field 0 = false :=
    is_row_full_of_empty_cell t.m_field 0 0 (by decide) (by decide) (h0 0 (by decide) (by decide))
  have hle := full_rows_below_le t.m_field 0 19
  obtain ⟨g, hg, -⟩ := clear_rows_loop_spec clear_rows_fuel 19 t.m_field hnf
    (by have : clear_rows_fuel = 40 := rfl
        omega)
  have hh : m_height - 1 = ((19 : Nat) : Int) := rfl
  have hrow0 : field_row t.m_field 0 = List.replicate m_width.toNat 0 := by
    rw [List.eq_replicate_iff]
    refine ⟨field_row_length _ _, ?_⟩
    intro b hb
    unfold field_row at hb
    rw [List.mem_map] at hb
    obtain ⟨x, hx, rfl⟩ := hb
    rw [List.mem_range] at hx
    have hn : m_width.toNat = 10 := rfl
    have hw : m_width = 10 := rfl
    exact h0 x (by omega) (by rw [hw]; omega)
  have hrows : field_rows g = reference_compaction (field_rows t.m_field) := by
    have := (clear_rows_loop_rows clear_rows_fuel 19 t.m_field g hnf hg).1
    rw [hrow0] at this
    exact this
  have hnone : ∀ r ∈ reference_compaction (field_rows t.m_field), row_full r = false := by
    intro r hr
    unfold reference_compaction at hr
    rcases List.mem_append.1 hr with h | h
    · rw [List.mem_replicate] at h
      rw [h.2]
      decide
    · have := (List.mem_filter.1 h).2
      cases hf : row_full r with
      | false => rfl
      | true => rw [hf] at this; exact Bool.noConfusion this
  refine ⟨g, ?_, hrows, ?_, ?_⟩
  · unfold clear_rows
    rw [hh, hg]
    rfl
  · intro r hr
    rw [← row_full_field_row]
    apply hnone
    rw [← hrows, field_rows_eq]
    exact List.mem_map.2 ⟨r, List.mem_range.2 hr, rfl⟩
  · rw [hrows]
    have hsplit := occupied_cells_split (field_rows t.m_field) (by
      intro r hr
      rw [field_rows_eq, List.mem_map] at hr
      obtain ⟨k, -, rfl⟩ := hr
      exact field_row_length _ k)
    unfold reference_compaction
    rw [occupied_cells_append, occupied_cells_empty_rows, Nat.zero_add]
    omega

end Tetris

/-! ## Reading the catalog -/

namespace Tetris

theorem filter_getElem_split {α : Type} (p : α → Bool) : ∀ (l : List α) (n : Nat) (e : α),
    (l.filter p)[n]? = some e →
    ∃ pre post, l = pre ++ e :: post ∧ p e = true ∧ (pre.filter p).length = n := by
  intro l
  induction l with
  | nil =>
    intro n e h
    simp at h
  | cons a l ih =>
    intro n e h
    cases hp : p a with
    | true =>
      rw [List.filter_cons_of_pos hp] at h
      cases n with
      | zero =>
        simp only [List.getElem?_cons_zero, Option.some.injEq] at h
        subst h
        exact ⟨[], l, rfl, hp, rfl⟩
      | succ n =>
        rw [List.getElem?_cons_succ] at h
        obtain ⟨pre, post, h1, h2, h3⟩ := ih n e h
        refine ⟨a :: pre, post, by rw [h1]; rfl, h2, ?_⟩
        rw [List.filter_cons_of_pos hp, List.length_cons, h3]
    | false =>
      rw [List.filter_cons_of_neg (by rw [hp]; exact Bool.false_ne_true)] at h
      obtain ⟨pre, post, h1, h2, h3⟩ := ih n e h
      refine ⟨a :: pre, post, by rw [h1]; rfl, h2, ?_⟩
      rw [List.filter_cons_of_neg (by rw [hp]; exact Bool.false_ne_true), h3]

/-- Once the count is reached the scanning loop stops at once. -/
theorem create_figure_scan_done (fn size : Int) (toks : List Int) :
    create_figure_scan fn fn size toks = some (size, toks) := by
  cases toks with
  | nil => rw [create_figure_scan, if_neg (by simp)]
  | cons s rest => rw [create_figure_scan, if_neg (by simp)]

/-- The scanning loop reads over cells, which are 0 or 1, without counting. -/
theorem create_figure_scan_cells (fn : Int) : ∀ (cells : List Int) (count size : Int)
    (rest : List Int), (∀ c ∈ cells, c = 0 ∨ c = 1) → count ≠ fn →
    ∃ size', create_figure_scan fn count size (cells ++ rest) =
      create_figure_scan fn count size' rest := by
  intro cells
  induction cells with
  | nil =>
    intro count size rest _ _
    exact ⟨size, rfl⟩
  | cons c cells ih =>
    intro count size rest hc hne
    have hc1 : ¬ c > 1 := by
      rcases hc c (List.mem_cons_self c cells) with h | h <;> omega
    obtain ⟨size', hs⟩ := ih count c rest (fun c' h' => hc c' (List.mem_cons_of_mem c h')) hne
    refine ⟨size', ?_⟩
    rw [List.cons_append, create_figure_scan, if_pos hne, if_neg hc1]
    exact hs

theorem entry_tokens_cons (e : Int × List Int) (entries : List (Int × List Int)) :
    entry_tokens (e :: entries) = e.1 :: (e.2 ++ entry_tokens entries) := by
  unfold entry_tokens
  rw [List.map_cons, List.flatten_cons, List.cons_append]

/-- The scanning loop over the entries before the one picked: it stops right
after the size of the entry that brings the count to the number picked. -/
theorem create_figure_scan_entries (fn : Int) : ∀ (pre : List (Int × List Int))
    (count size : Int) (e : Int × List Int) (post : List (Int × List Int)),
    (∀ p ∈ pre, WellFormedEntry p) → 1 < e.1 →
    count + ((counted_entries pre).length : Int) + 1 = fn →
    create_figure_scan fn count size (entry_tokens (pre ++ e :: post)) =
      some (e.1, e.2 ++ entry_tokens post) := by
  intro pre
  induction pre with
  | nil =>
    intro count size e post _ he hcount
    have hc : count + 1 = fn := by
      have : ((counted_entries ([] : List (Int × List Int))).length : Int) = 0 := rfl
      omega
    rw [List.nil_append, entry_tokens_cons, create_figure_scan, if_pos (by omega), if_pos he, hc]
    exact create_figure_scan_done fn e.1 _
  | cons p pre ih =>
    intro count size e post hw he hcount
    have hpw := hw p (List.mem_cons_self p pre)
    have hrest : ∀ q ∈ pre, WellFormedEntry q := fun q hq => hw q (List.mem_cons_of_mem p hq)
    rw [List.cons_append, entry_tokens_cons, create_figure_scan]
    by_cases hp : 1 < p.1
    · have hlen : ((counted_entries (p :: pre)).length : Int)
          = ((counted_entries pre).length : Int) + 1 := by
        unfold counted_entries
        rw [List.filter_cons_of_pos (by simpa using hp), List.length_cons]
        push_cast
        rfl
      rw [hlen] at hcount
      have hnn : (0 : Int) ≤ ((counted_entries pre).length : Int) := Int.ofNat_nonneg _
      rw [if_pos (by omega), if_pos hp]
      obtain ⟨size', hs⟩ := create_figure_scan_cells fn p.2 (count + 1) p.1
        (entry_tokens (pre ++ e :: post)) hpw.2 (by omega)
      rw [hs]
      exact ih (count + 1) size' e post hrest he (by omega)
    · have hlen : ((counted_entries (p :: pre)).length : Int)
          = ((counted_entries pre).length : Int) := by
        unfold counted_entries
        rw [List.filter_cons_of_neg (by simpa using hp)]
      rw [hlen] at hcount
      have hnn : (0 : Int) ≤ ((counted_entries pre).length : Int) := Int.ofNat_nonneg _
      rw [if_pos (by omega), if_neg hp]
      obtain ⟨size', hs⟩ := create_figure_scan_cells fn p.2 count p.1
        (entry_tokens (pre ++ e :: post)) hpw.2 (by omega)
      rw [hs]
      exact ih count size' e post hrest he (by omega)

end Tetris

namespace Tetris

theorem exists_snoc {α : Type} (l : List α) (w : Nat) (h : l.length = w + 1) :
    ∃ (l' : List α) (v : α), l = l' ++ [v] ∧ l'.length = w := by
  have hne : l ≠ [] := by
    intro hcon
    rw [hcon] at h
    exact absurd h (by simp)
  refine ⟨l.dropLast, l.getLast hne, (List.dropLast_append_getLast hne).symm, ?_⟩
  rw [List.length_dropLast, h]
  rfl

/-- One row of the cell loops of `create_figure`: the inner loop reads the `w`
tokens of the row into row `i` of the matrix and leaves the other rows. -/
theorem create_figure_cells_row (i : Int) : ∀ (w : Nat) (row rest : List Int) (m : Matrix),
    row.length = w →
    ∃ m' : Matrix,
      (upto w).foldlM (fun (acc : Matrix × List Int) j =>
        match acc.2 with
        | [] => none
        | v :: rest => some (acc.1.set i j v, rest)) (m, row ++ rest) = some (m', rest) ∧
      (∀ b : Nat, b < w → m' i (b : Int) = row.getD b 0) ∧
      (∀ a b : Int, a ≠ i → m' a b = m a b) := by
  intro w
  induction w with
  | zero =>
    intro row rest m hlen
    have hrow : row = [] := List.length_eq_zero.1 hlen
    subst hrow
    refine ⟨m, rfl, fun b hb => absurd hb (by omega), fun _ _ _ => rfl⟩
  | succ w ih =>
    intro row rest m hlen
    obtain ⟨row', v, rfl, hlen'⟩ := exists_snoc row w hlen
    obtain ⟨m1, h1, h2, h3⟩ := ih row' (v :: rest) m hlen'
    refine ⟨Matrix.set m1 i w v, ?_, ?_, ?_⟩
    · rw [Nat.cast_succ, upto_succ, List.foldlM_append, List.append_assoc, List.singleton_append,
        h1]
      rfl
    · intro b hb
      unfold Matrix.set
      by_cases hbw : b = w
      · subst hbw
        rw [if_pos ⟨rfl, rfl⟩, List.getD_append_right _ _ _ _ (by omega), hlen', Nat.sub_self]
        rfl
      · rw [if_neg (by omega), h2 b (by omega), List.getD_append _ _ _ _ (by omega)]
    · intro a b ha
      unfold Matrix.set
      rw [if_neg (fun hc => ha hc.1)]
      exact h3 a b ha

/-- The cell loops of `create_figure`: they read `k` rows of `w` tokens in
row-major order into the first `k` rows of the matrix. -/
theorem create_figure_cells_rows (w : Nat) (m0 : Matrix) : ∀ (k : Nat) (block rest : List Int),
    block.length = k * w →
    ∃ m' : Matrix,
      (upto k).foldlM (fun (acc : Matrix × List Int) i =>
        (upto w).foldlM (fun (acc : Matrix × List Int) j =>
          match acc.2 with
          | [] => none
          | v :: rest => some (acc.1.set i j v, rest)) acc) (m0, block ++ rest) = some (m', rest) ∧
      ∀ a b : Nat, a < k → b < w → m' (a : Int) (b : Int) = block.getD (a * w + b) 0 := by
  intro k
  induction k with
  | zero =>
    intro block rest hlen
    have hb : block = [] := List.length_eq_zero.1 (by rw [hlen, Nat.zero_mul])
    subst hb
    exact ⟨m0, rfl, fun a b ha _ => absurd ha (by omega)⟩
  | succ k ih =>
    intro block rest hlen
    have hsplit : block = block.take (k * w) ++ block.drop (k * w) :=
      (List.take_append_drop _ _).symm
    have hlen1 : (block.take (k * w)).length = k * w := by
      rw [List.length_take, hlen, Nat.succ_mul]
      omega
    have hlen2 : (block.drop (k * w)).length = w := by
      rw [List.length_drop, hlen, Nat.succ_mul]
      omega
    obtain ⟨m1, h1, h2⟩ := ih (block.take (k * w)) (block.drop (k * w) ++ rest) hlen1
    obtain ⟨m2, g1, g2, g3⟩ := create_figure_cells_row (k : Int) w (block.drop (k * w)) rest m1 hlen2
    refine ⟨m2, ?_, ?_⟩
    · rw [Nat.cast_succ, upto_succ, List.foldlM_append]
      conv_lhs => rw [hsplit, List.append_assoc, h1]
      simp only [List.foldlM_cons, List.foldlM_nil, Option.some_bind, Option.bind_eq_bind,
        bind_pure]
      exact g1
    · intro a b ha hb
      have hidx : a < k → a * w + b < k * w := by
        intro hak
        have h' : (a + 1) * w ≤ k * w := Nat.mul_le_mul_right w hak
        rw [Nat.succ_mul] at h'
        omega
      by_cases hak : a = k
      · subst hak
        rw [g2 b hb]
        conv_rhs => rw [hsplit, List.getD_append_right _ _ _ _ (by rw [hlen1]; omega), hlen1]
        congr 1
        omega
      · have hak' : a < k := by omega
        rw [g3 (a : Int) (b : Int) (by omega), h2 a b hak' hb]
        conv_rhs => rw [hsplit, List.getD_append _ _ _ _ (by rw [hlen1]; exact hidx hak')]

end Tetris

namespace Tetris

/-- C17: on every well-formed catalog file (the number `N` of entries of size
above 1, then entries made of a size `s` and `s * s` cells 0 or 1) and for every
pick `k` with `1 ≤ k ≤ N` given by the generator, `create_figure` returns the
size of the `k`-th entry among those of size above 1 and sets the shape to the
cells of that entry in row-major order; entries of size at most 1 are not
counted.  The other members are unchanged. -/
theorem create_figure_picks_entry (entries : List (Int × List Int))
    (hw : ∀ e ∈ entries, WellFormedEntry e) (k : Int) (hk1 : 1 ≤ k)
    (hk2 : k ≤ ((counted_entries entries).length : Int)) (t : Tetris) (rng' : List Int)
    (htxt : t.figures_txt = catalog_file entries) (hrng : t.rng = k :: rng') :
    ∃ (e : Int × List Int) (t' : Tetris),
      (counted_entries entries)[(k - 1).toNat]? = some e ∧
      create_figure t = some (e.1, t') ∧ t'.m_size = e.1 ∧
      (∀ i j : Int, 0 ≤ i → i < e.1 → 0 ≤ j → j < e.1 →
        t'.m_figure i j = e.2.getD (i * e.1 + j).toNat 0) ∧
      t'.rng = rng' ∧ t'.m_field = t.m_field ∧ t'.m_x = t.m_x ∧ t'.m_y = t.m_y ∧
      t'.state = t.state := by
  have hn : (k - 1).toNat < (counted_entries entries).length := by omega
  obtain ⟨e, hget⟩ : ∃ e, (counted_entries entries)[(k - 1).toNat]? = some e :=
    ⟨_, List.getElem?_eq_getElem hn⟩
  obtain ⟨pre, post, hsplit, hbig, hpre⟩ := filter_getElem_split _ entries (k - 1).toNat
    e hget
  have he1 : 1 < e.1 := by simpa using hbig
  have hwe : WellFormedEntry e := hw e (by rw [hsplit]; simp)
  have hwpre : ∀ p ∈ pre, WellFormedEntry p := fun p hp => hw p (by rw [hsplit]; simp [hp])
  have hscan := create_figure_scan_entries k pre 0 0 e post hwpre he1 (by
    have : ((counted_entries pre).length : Int) = (((k - 1).toNat : Nat) : Int) := by
      unfold counted_entries
      rw [hpre]
    omega)
  obtain ⟨w, hw'⟩ : ∃ w : Nat, e.1 = (w : Int) := ⟨e.1.toNat, by omega⟩
  have hlen : e.2.length = w * w := by
    have := hwe.1
    rw [hw'] at this
    exact_mod_cast this
  obtain ⟨m', hm1, hm2⟩ := create_figure_cells_rows w (create_matrix e.1 e.1) w e.2
    (entry_tokens post) hlen
  have hcells : create_figure_cells e.1 (e.2 ++ entry_tokens post) = some (m', entry_tokens post) := by
    unfold create_figure_cells
    rw [hw']
    rw [hw'] at hm1
    exact hm1
  refine ⟨e, { t with m_figure := m', m_size := e.1, rng := rng' },
    hget, ?_, rfl, ?_, rfl, rfl, rfl, rfl, rfl⟩
  · unfold create_figure create_figure_read
    rw [htxt, hrng]
    unfold catalog_file RNG.rand
    dsimp only
    rw [if_pos ⟨hk1, hk2⟩, Option.some_bind]
    dsimp only
    rw [hsplit, hscan, Option.some_bind]
    dsimp only
    rw [hcells]
    rfl
  · intro i j hi0 hi1 hj0 hj1
    have hi : i = ((i.toNat : Nat) : Int) := by omega
    have hj : j = ((j.toNat : Nat) : Int) := by omega
    have hidx : (i * e.1 + j).toNat = i.toNat * w + j.toNat := by
      rw [hw']
      conv_lhs => rw [hi, hj]
      have : ((i.toNat : Nat) : Int) * (w : Int) + ((j.toNat : Nat) : Int)
          = ((i.toNat * w + j.toNat : Nat) : Int) := by push_cast; rfl
      rw [this, Int.toNat_ofNat]
    show m' i j = _
    rw [hidx]
    conv_lhs => rw [hi, hj]
    exact hm2 i.toNat j.toNat (by omega) (by omega)

end Tetris

/-! ## Stamping the figure into the field -/

namespace Tetris

/-- A loop whose body paints `v` on the cells picked by `P a` and leaves the
other cells alone paints `v` on the cells picked by some `a` of the list. -/
theorem foldl_paint {ι : Type} (P : ι → Int → Int → Prop) (G : ι → Matrix → Matrix) (v : Int)
    (hG : ∀ a f y x, (P a y x → G a f y x = v) ∧ (¬ P a y x → G a f y x = f y x))
    (L : List ι) : ∀ (f : Matrix) (y x : Int),
    ((∃ a ∈ L, P a y x) → L.foldl (fun f a => G a f) f y x = v) ∧
    (¬ (∃ a ∈ L, P a y x) → L.foldl (fun f a => G a f) f y x = f y x) := by
  induction L with
  | nil =>
    intro f y x
    constructor
    · rintro ⟨a, ha, -⟩
      exact absurd ha (List.not_mem_nil a)
    · intro _
      rfl
  | cons a L ih =>
    intro f y x
    rw [List.foldl_cons]
    by_cases hL : ∃ b ∈ L, P b y x
    · exact ⟨fun _ => (ih (G a f) y x).1 hL, fun hn => absurd
        (by obtain ⟨b, hb, hp⟩ := hL; exact ⟨b, List.mem_cons_of_mem a hb, hp⟩) hn⟩
    · rw [(ih (G a f) y x).2 hL]
      constructor
      · rintro ⟨b, hb, hp⟩
        rcases List.mem_cons.1 hb with rfl | hb'
        · exact (hG b f y x).1 hp
        · exact absurd ⟨b, hb', hp⟩ hL
      · intro hn
        exact (hG a f y x).2 (fun hp => hn ⟨a, List.mem_cons_self a L, hp⟩)

/-- The loops of `add_figure_to_field` and `remove_figure_from_field` in closed
form: `v` on the field cells under the figure, the old value elsewhere. -/
theorem stamp_figure_apply (t : Tetris) (v y x : Int) :
    (Covered t y x → stamp_figure t v y x = v) ∧
    (¬ Covered t y x → stamp_figure t v y x = t.m_field y x) := by
  have inner : ∀ (i : Int) (f : Matrix) (y x : Int),
      ((∃ j ∈ upto t.m_size, t.m_figure i j ≠ 0 ∧ is_block_in_field (t.m_x + j) (t.m_y + i) = true ∧
          t.m_y + i = y ∧ t.m_x + j = x) →
        (upto t.m_size).foldl (fun f j =>
          if t.m_figure i j ≠ 0 ∧ is_block_in_field (t.m_x + j) (t.m_y + i) = true
          then Matrix.set f (t.m_y + i) (t.m_x + j) v else f) f y x = v) ∧
      (¬ (∃ j ∈ upto t.m_size, t.m_figure i j ≠ 0 ∧
          is_block_in_field (t.m_x + j) (t.m_y + i) = true ∧ t.m_y + i = y ∧ t.m_x + j = x) →
        (upto t.m_size).foldl (fun f j =>
          if t.m_figure i j ≠ 0 ∧ is_block_in_field (t.m_x + j) (t.m_y + i) = true
          then Matrix.set f (t.m_y + i) (t.m_x + j) v else f) f y x = f y x) := by
    intro i
    refine foldl_paint (fun j y x => t.m_figure i j ≠ 0 ∧
      is_block_in_field (t.m_x + j) (t.m_y + i) = true ∧ t.m_y + i = y ∧ t.m_x + j = x)
      (fun j f => if t.m_figure i j ≠ 0 ∧ is_block_in_field (t.m_x + j) (t.m_y + i) = true
        then Matrix.set f (t.m_y + i) (t.m_x + j) v else f) v ?_ (upto t.m_size)
    intro j f y x
    beta_reduce
    constructor
    · rintro ⟨h1, h2, h3, h4⟩
      rw [if_pos ⟨h1, h2⟩]
      unfold Matrix.set
      rw [if_pos ⟨h3.symm, h4.symm⟩]
    · intro hn
      by_cases hc : t.m_figure i j ≠ 0 ∧ is_block_in_field (t.m_x + j) (t.m_y + i) = true
      · rw [if_pos hc]
        unfold Matrix.set
        rw [if_neg (fun h => hn ⟨hc.1, hc.2, h.1.symm, h.2.symm⟩)]
      · rw [if_neg hc]
  have outer := foldl_paint (fun i y x => ∃ j ∈ upto t.m_size, t.m_figure i j ≠ 0 ∧
      is_block_in_field (t.m_x + j) (t.m_y + i) = true ∧ t.m_y + i = y ∧ t.m_x + j = x)
      (fun i f => (upto t.m_size).foldl (fun f j =>
        if t.m_figure i j ≠ 0 ∧ is_block_in_field (t.m_x + j) (t.m_y + i) = true
        then Matrix.set f (t.m_y + i) (t.m_x + j) v else f) f) v inner (upto t.m_size)
      t.m_field y x
  have hiff : Covered t y x ↔ ∃ i ∈ upto t.m_size, ∃ j ∈ upto t.m_size, t.m_figure i j ≠ 0 ∧
      is_block_in_field (t.m_x + j) (t.m_y + i) = true ∧ t.m_y + i = y ∧ t.m_x + j = x := by
    unfold Covered
    constructor
    · rintro ⟨h1, h2, h3, h4, h5, h6, h7, h8, h9⟩
      refine ⟨y - t.m_y, (mem_upto _ _).2 ⟨h1, h2⟩, x - t.m_x, (mem_upto _ _).2 ⟨h3, h4⟩, h5, ?_,
        by omega, by omega⟩
      rw [is_block_in_field_iff]
      exact ⟨by omega, by omega, by omega, by omega⟩
    · rintro ⟨i, hi, j, hj, h1, h2, rfl, rfl⟩
      rw [mem_upto] at hi hj
      rw [is_block_in_field_iff] at h2
      have ei : t.m_y + i - t.m_y = i := by omega
      have ej : t.m_x + j - t.m_x = j := by omega
      rw [ei, ej]
      exact ⟨hi.1, hi.2, hj.1, hj.2, h1, h2.1, h2.2.1, h2.2.2.1, h2.2.2.2⟩
  rw [hiff]
  exact outer

end Tetris

/-! ## The soft-drop scenario -/

namespace Tetris

theorem spawn_figure_m_field (t s : Tetris) (h : spawn_figure t = some s) :
    s.m_field = t.m_field := by
  unfold spawn_figure create_figure at h
  cases hread : create_figure_read t.figures_txt t.rng with
  | none => rw [hread] at h; exact Option.noConfusion h
  | some r =>
    obtain ⟨size, figure, rng⟩ := r
    rw [hread] at h
    simp only [Option.some_bind] at h
    cases hr : RNG.rand rng (-3) 3 with
    | none => rw [hr] at h; exact Option.noConfusion h
    | some p =>
      rw [hr] at h
      simp only [Option.some_bind, Option.some.injEq] at h
      rw [← h]

theorem spawn_figure_isSome_congr (t t' : Tetris) (h1 : t.figures_txt = t'.figures_txt)
    (h2 : t.rng = t'.rng) : (spawn_figure t).isSome = (spawn_figure t').isSome := by
  unfold spawn_figure create_figure
  rw [h1, h2]
  cases hread : create_figure_read t'.figures_txt t'.rng with
  | none => rfl
  | some r =>
    obtain ⟨size, figure, rng⟩ := r
    simp only [Option.some_bind]
    cases hr : RNG.rand rng (-3) 3 with
    | none => rfl
    | some p => rfl

/-- One `s` key in mode `MOVING`: the figure goes down one row, and the mode
becomes `ATTACHING` when it is attached there. -/
theorem process_user_input_key_s (t : Tetris) (ks : List Int) (hk : t.keys = key_s :: ks)
    (hs : t.state = States.MOVING) :
    process_user_input t = some
      (if is_figure_attached { t with keys := ks, m_y := t.m_y + 1 }
       then { t with keys := ks, m_y := t.m_y + 1, state := States.ATTACHING }
       else { t with keys := ks, m_y := t.m_y + 1 }) := by
  unfold process_user_input getch process_key
  rw [hk]
  have e : key_s % 256 = key_s := by decide
  simp only [e]
  rw [if_neg (by decide), if_neg (by decide), if_neg (by decide), if_pos hs]
  simp only [if_true, move_figure_down]

theorem process_user_input_times_succ_last (n : Nat) : ∀ t : Tetris,
    process_user_input_times (n + 1) t = (process_user_input_times n t).bind process_user_input := by
  induction n with
  | zero =>
    intro t
    simp only [process_user_input_times, Option.some_bind]
    cases process_user_input t <;> rfl
  | succ n ih =>
    intro t
    rw [process_user_input_times]
    cases h : process_user_input t with
    | none => simp [process_user_input_times, h]
    | some s =>
      rw [Option.some_bind, ih s]
      conv_rhs => rw [process_user_input_times, h, Option.some_bind]

/-- The filled 2 × 2 square over an empty field is attached exactly from row 18 on. -/
theorem square_attached_iff (t : Tetris) (hsize : t.m_size = 2)
    (hf : ∀ y x : Int, 0 ≤ y → y < m_height → 0 ≤ x → x < m_width → t.m_field y x = 0)
    (hfig : ∀ i j : Int, 0 ≤ i → i < 2 → 0 ≤ j → j < 2 → t.m_figure i j ≠ 0)
    (hx0 : 0 ≤ t.m_x) (hx1 : t.m_x ≤ 8) (hy : 0 ≤ t.m_y) :
    is_figure_attached t = true ↔ 18 ≤ t.m_y := by
  have hh : m_height = 20 := rfl
  have hw : m_width = 10 := rfl
  rw [is_figure_attached_iff]
  unfold FigureAttached
  rw [hsize, hh]
  constructor
  · rintro ⟨i, j, hi0, hi1, hj0, hj1, -, h | h⟩
    · omega
    · by_contra hcon
      exact h (hf _ _ (by omega) (by omega) (by omega) (by omega))
  · intro h
    exact ⟨1, 0, by omega, by omega, by omega, by omega,
      hfig 1 0 (by omega) (by omega) (by omega) (by omega), Or.inl (by omega)⟩

/-- While the square stays above row 18, `n` keys `s` take it `n` rows down and
leave the mode `MOVING`. -/
theorem soft_drop_steps (n : Nat) : ∀ (t : Tetris) (rest : List Int),
    t.keys = List.replicate n key_s ++ rest → t.state = States.MOVING → t.m_size = 2 →
    (∀ y x : Int, 0 ≤ y → y < m_height → 0 ≤ x → x < m_width → t.m_field y x = 0) →
    (∀ i j : Int, 0 ≤ i → i < 2 → 0 ≤ j → j < 2 → t.m_figure i j ≠ 0) →
    0 ≤ t.m_x → t.m_x ≤ 8 → 0 ≤ t.m_y → t.m_y + n ≤ 17 →
    process_user_input_times n t = some { t with keys := rest, m_y := t.m_y + n } := by
  induction n with
  | zero =>
    intro t rest hk _ _ _ _ _ _ _ _
    rw [List.replicate_zero, List.nil_append] at hk
    rw [process_user_input_times, ← hk]
    simp
  | succ n ih =>
    intro t rest hk hs hsize hf hfig hx0 hx1 hy hn
    rw [List.replicate_succ, List.cons_append] at hk
    rw [process_user_input_times, process_user_input_key_s t _ hk hs]
    have hna : ¬ (is_figure_attached
        { t with keys := List.replicate n key_s ++ rest, m_y := t.m_y + 1 } = true) := by
      have hiff := square_attached_iff
        { t with keys := List.replicate n key_s ++ rest, m_y := t.m_y + 1 } hsize hf hfig hx0 hx1
        (by dsimp only; omega)
      rw [hiff]
      dsimp only
      push_cast at hn
      omega
    rw [if_neg hna, Option.some_bind,
      ih { t with keys := List.replicate n key_s ++ rest, m_y := t.m_y + 1 } rest rfl hs hsize hf
        hfig hx0 hx1 (by dsimp only; omega) (by dsimp only; push_cast at hn; omega)]
    dsimp only
    push_cast
    rw [Int.add_assoc, Int.add_comm 1 (n : Int)]

end Tetris

namespace Tetris

/-- C8: the soft-drop scenario, for every column `0 ≤ x ≤ 8`.  From an empty
field with the filled 2 × 2 square at `(x, 0)` in mode `MOVING`, `k ≤ 18` keys
`s` leave `m_y = k`, in mode `MOVING` for `k ≤ 17` and `ATTACHING` for `k = 18`;
then `attach_figure` (given that a next figure can be spawned) leaves a field
whose occupied cells are exactly rows 18 and 19 of columns `x` and `x + 1`. -/
theorem soft_drop_scenario (f fig : Matrix) (x : Int) (rng rest figures_txt : List Int)
    (hf : ∀ y x' : Int, 0 ≤ y → y < m_height → 0 ≤ x' → x' < m_width → f y x' = 0)
    (hfig : ∀ i j : Int, 0 ≤ i → i < 2 → 0 ≤ j → j < 2 → fig i j ≠ 0)
    (hx0 : 0 ≤ x) (hx1 : x ≤ 8)
    (hspawn : (spawn_figure (soft_drop_state f fig x 0 States.MOVING rng
      (List.replicate 18 key_s ++ rest) figures_txt)).isSome = true) :
    (∀ k : Nat, k ≤ 18 → ∃ s : Tetris,
      process_user_input_times k (soft_drop_state f fig x 0 States.MOVING rng
        (List.replicate 18 key_s ++ rest) figures_txt) = some s ∧
      s.m_y = (k : Int) ∧ s.state = (if k = 18 then States.ATTACHING else States.MOVING)) ∧
    ∃ s18 s' : Tetris,
      process_user_input_times 18 (soft_drop_state f fig x 0 States.MOVING rng
        (List.replicate 18 key_s ++ rest) figures_txt) = some s18 ∧
      attach_figure s18 = some s' ∧
      ∀ y x' : Int, 0 ≤ y → y < m_height → 0 ≤ x' → x' < m_width →
        (s'.m_field y x' ≠ 0 ↔ (y = 18 ∨ y = 19) ∧ (x' = x ∨ x' = x + 1)) := by
  have hh : m_height = 20 := rfl
  have hw : m_width = 10 := rfl
  have hsteps : ∀ k : Nat, k ≤ 17 →
      process_user_input_times k (soft_drop_state f fig x 0 States.MOVING rng
        (List.replicate 18 key_s ++ rest) figures_txt) =
      some (soft_drop_state f fig x (k : Int) States.MOVING rng
        (List.replicate (18 - k) key_s ++ rest) figures_txt) := by
    intro k hk
    have hkeys : List.replicate 18 key_s ++ rest =
        List.replicate k key_s ++ (List.replicate (18 - k) key_s ++ rest) := by
      rw [← List.append_assoc, ← List.replicate_add]
      congr 2
      omega
    have := soft_drop_steps k (soft_drop_state f fig x 0 States.MOVING rng
      (List.replicate 18 key_s ++ rest) figures_txt) (List.replicate (18 - k) key_s ++ rest)
      hkeys rfl rfl hf hfig hx0 hx1 (le_refl _) (by
        show (0 : Int) + (k : Int) ≤ 17
        omega)
    rw [this]
    simp only [soft_drop_state, Int.zero_add]
  have hatt : is_figure_attached (soft_drop_state f fig x (((17 : Nat) : Int) + 1)
      States.MOVING rng rest figures_txt) = true :=
    (square_attached_iff (soft_drop_state f fig x (((17 : Nat) : Int) + 1) States.MOVING rng rest
      figures_txt) rfl hf hfig hx0 hx1
      (show (0 : Int) ≤ ((17 : Nat) : Int) + 1 by decide)).2
      (show (18 : Int) ≤ ((17 : Nat) : Int) + 1 by decide)
  have h18 : process_user_input_times 18 (soft_drop_state f fig x 0 States.MOVING rng
        (List.replicate 18 key_s ++ rest) figures_txt) =
      some (soft_drop_state f fig x 18 States.ATTACHING rng rest figures_txt) := by
    rw [process_user_input_times_succ_last 17, hsteps 17 (le_refl _), Option.some_bind,
      process_user_input_key_s _ rest rfl rfl]
    unfold soft_drop_state at hatt ⊢
    dsimp only at hatt ⊢
    rw [if_pos hatt]
    rfl
  have hcov : ∀ y x' : Int,
      Covered (soft_drop_state f fig x 18 States.ATTACHING rng rest figures_txt) y x' ↔
      (y = 18 ∨ y = 19) ∧ (x' = x ∨ x' = x + 1) := by
    intro y x'
    unfold Covered soft_drop_state
    dsimp only
    rw [hh, hw]
    constructor
    · rintro ⟨h1, h2, h3, h4, -, h6, h7, h8, h9⟩
      omega
    · intro h
      exact ⟨by omega, by omega, by omega, by omega,
        hfig _ _ (by omega) (by omega) (by omega) (by omega), by omega, by omega, by omega,
        by omega⟩
  have hfield : ∀ y x' : Int, 0 ≤ y → y < m_height → 0 ≤ x' → x' < m_width →
      ((stamp_figure (soft_drop_state f fig x 18 States.ATTACHING rng rest figures_txt) 1 y x'
        ≠ 0) ↔ (y = 18 ∨ y = 19) ∧ (x' = x ∨ x' = x + 1)) := by
    intro y x' hy0 hy1 hx0' hx1'
    rw [← hcov]
    constructor
    · intro hne
      by_contra hn
      rw [(stamp_figure_apply _ 1 y x').2 hn] at hne
      exact hne (hf y x' hy0 hy1 hx0' hx1')
    · intro hc
      rw [(stamp_figure_apply _ 1 y x').1 hc]
      decide
  have hnofull : ∀ r : Nat, 1 ≤ r → r ≤ 19 →
      is_row_full (stamp_figure (soft_drop_state f fig x 18 States.ATTACHING rng rest
        figures_txt) 1) (r : Int) = false := by
    intro r hr1 hr2
    by_cases hx8 : x = 8
    · refine is_row_full_of_empty_cell _ _ 0 (by decide) (by decide) ?_
      by_contra hne
      have := (hfield (r : Int) 0 (by omega) (by omega) (by decide) (by decide)).1 hne
      omega
    · refine is_row_full_of_empty_cell _ _ 9 (by decide) (by decide) ?_
      by_contra hne
      have := (hfield (r : Int) 9 (by omega) (by omega) (by decide) (by decide)).1 hne
      omega
  have hclear := clear_rows_loop_of_no_full clear_rows_fuel 19 _ hnofull (by decide)
  have hsp : (spawn_figure (add_figure_to_field
      (soft_drop_state f fig x 18 States.ATTACHING rng rest figures_txt))).isSome = true := by
    rw [spawn_figure_isSome_congr (add_figure_to_field
      (soft_drop_state f fig x 18 States.ATTACHING rng rest figures_txt))
      (soft_drop_state f fig x 0 States.MOVING rng
      (List.replicate 18 key_s ++ rest) figures_txt) rfl rfl]
    exact hspawn
  obtain ⟨s', hs'⟩ := Option.isSome_iff_exists.1 hsp
  constructor
  · intro k hk
    by_cases hk' : k = 18
    · subst hk'
      exact ⟨_, h18, rfl, rfl⟩
    · refine ⟨_, hsteps k (by omega), rfl, ?_⟩
      rw [if_neg hk']
      rfl
  · refine ⟨_, { s' with state := States.MOVING }, h18, ?_, ?_⟩
    · have hh' : m_height - 1 = ((19 : Nat) : Int) := rfl
      have hgo : is_game_over (add_figure_to_field
          (soft_drop_state f fig x 18 States.ATTACHING rng rest figures_txt)) = false := by
        simp [is_game_over, add_figure_to_field, soft_drop_state]
      unfold attach_figure clear_rows
      rw [hh']
      have hfld : (add_figure_to_field
          (soft_drop_state f fig x 18 States.ATTACHING rng rest figures_txt)).m_field =
          stamp_figure (soft_drop_state f fig x 18 States.ATTACHING rng rest figures_txt) 1 := rfl
      rw [hfld, hclear]
      simp only [Option.map_some', Option.some_bind]
      have hsame : ({ add_figure_to_field
          (soft_drop_state f fig x 18 States.ATTACHING rng rest figures_txt) with
          m_field := stamp_figure
            (soft_drop_state f fig x 18 States.ATTACHING rng rest figures_txt) 1 } : Tetris) =
          add_figure_to_field
            (soft_drop_state f fig x 18 States.ATTACHING rng rest figures_txt) := rfl
      rw [hsame, hgo]
      simp only [Bool.false_eq_true, if_false, Option.some_bind]
      rw [hs']
      rfl
    · intro y x' hy0 hy1 hx0' hx1'
      have hfld := spawn_figure_m_field _ _ hs'
      dsimp only
      rw [hfld]
      exact hfield y x' hy0 hy1 hx0' hx1'

end Tetris

/-! ## The game loop -/

namespace Tetris

/-- The size found by the scanning loop of `create_figure` is the size it
started with, when the count is already reached, or a token above 1. -/
theorem create_figure_scan_size (fn : Int) : ∀ (toks : List Int) (count size sz : Int)
    (rest : List Int), create_figure_scan fn count size toks = some (sz, rest) →
    (count = fn ∧ sz = size) ∨ (sz ∈ toks ∧ 1 < sz) := by
  intro toks
  induction toks with
  | nil =>
    intro count size sz rest h
    rw [create_figure_scan] at h
    by_cases hc : count ≠ fn
    · rw [if_pos hc] at h
      exact Option.noConfusion h
    · rw [if_neg hc] at h
      simp only [Option.some.injEq, Prod.mk.injEq] at h
      exact Or.inl ⟨not_not.1 hc, h.1.symm⟩
  | cons s toks ih =>
    intro count size sz rest h
    rw [create_figure_scan] at h
    by_cases hc : count ≠ fn
    · rw [if_pos hc] at h
      rcases ih _ _ _ _ h with ⟨h1, h2⟩ | ⟨h1, h2⟩
      · right
        by_cases hs : s > 1
        · rw [h2]
          exact ⟨List.mem_cons_self _ _, hs⟩
        · rw [if_neg hs] at h1
          exact absurd h1 hc
      · exact Or.inr ⟨List.mem_cons_of_mem _ h1, h2⟩
    · rw [if_neg hc] at h
      simp only [Option.some.injEq, Prod.mk.injEq] at h
      exact Or.inl ⟨not_not.1 hc, h.1.symm⟩

theorem RNG.rand_range (rng : List Int) (lo hi d : Int) (rng' : List Int)
    (h : RNG.rand rng lo hi = some (d, rng')) : lo ≤ d ∧ d ≤ hi := by
  unfold RNG.rand at h
  cases rng with
  | nil => exact Option.noConfusion h
  | cons a as =>
    dsimp only at h
    by_cases hc : lo ≤ a ∧ a ≤ hi
    · rw [if_pos hc] at h
      simp only [Option.some.injEq, Prod.mk.injEq] at h
      rw [← h.1]
      exact hc
    · rw [if_neg hc] at h
      exact Option.noConfusion h

/-- On a catalog file whose tokens after the count are at most 4, the size
`create_figure` reads is between 2 and 4. -/
theorem create_figure_read_size (txt rng : List Int) (size : Int) (figure : Matrix)
    (rng' : List Int) (hb : ∀ tok ∈ txt.tail, tok ≤ 4)
    (h : create_figure_read txt rng = some (size, figure, rng')) : 2 ≤ size ∧ size ≤ 4 := by
  unfold create_figure_read at h
  cases txt with
  | nil => exact Option.noConfusion h
  | cons figure_count toks =>
    dsimp only at h
    cases hr : RNG.rand rng 1 figure_count with
    | none => rw [hr] at h; exact Option.noConfusion h
    | some p =>
      obtain ⟨fn, rng1⟩ := p
      rw [hr, Option.some_bind] at h
      have hfn := (RNG.rand_range _ _ _ _ _ hr).1
      cases hs : create_figure_scan fn 0 0 toks with
      | none => rw [hs] at h; exact Option.noConfusion h
      | some q =>
        obtain ⟨sz, rest⟩ := q
        rw [hs, Option.some_bind] at h
        cases hc : create_figure_cells sz rest with
        | none => rw [hc] at h; exact Option.noConfusion h
        | some c =>
          rw [hc, Option.some_bind] at h
          simp only [Option.some.injEq, Prod.mk.injEq] at h
          rcases create_figure_scan_size fn toks 0 0 sz rest hs with ⟨h1, -⟩ | ⟨h1, h2⟩
          · omega
          · have := hb sz h1
            omega

/-- The tokens of a catalog of well-formed shapes are at most 4. -/
theorem catalog_tokens_bounded (shapes : List (Int × List Int))
    (hw : ∀ e ∈ shapes, WellFormedShape e) : ∀ tok ∈ (catalog_tokens shapes).tail, tok ≤ 4 := by
  intro tok htok
  unfold catalog_tokens at htok
  rw [List.tail_cons, List.mem_flatten] at htok
  obtain ⟨l, hl, hmem⟩ := htok
  rw [List.mem_map] at hl
  obtain ⟨e, he, rfl⟩ := hl
  obtain ⟨h1, h2, -, h4⟩ := hw e he
  rcases List.mem_cons.1 hmem with rfl | hc
  · exact h2
  · rcases h4 tok hc with rfl | rfl <;> decide

end Tetris

namespace Tetris

/-- A figure whose whole square lies in the field is inside the field. -/
theorem FigureInBounds_of_box (t : Tetris) (hx0 : 0 ≤ t.m_x) (hx1 : t.m_x + t.m_size ≤ m_width)
    (hy0 : 0 ≤ t.m_y) (hy1 : t.m_y + t.m_size ≤ m_height) : FigureInBounds t := by
  intro i j hi0 hi1 hj0 hj1 _
  omega

theorem spawn_anchor_range (size r : Int) (h2 : 2 ≤ size) (h4 : size ≤ 4) (hr0 : -3 ≤ r)
    (hr1 : r ≤ 3) :
    0 ≤ (m_width - size).tdiv 2 + r ∧ (m_width - size).tdiv 2 + r + size ≤ m_width := by
  have hw : m_width = 10 := rfl
  rw [hw]
  have hs : size = 2 ∨ size = 3 ∨ size = 4 := by omega
  rcases hs with rfl | rfl | rfl
  · have : ((10 : Int) - 2).tdiv 2 = 4 := by decide
    rw [this]; omega
  · have : ((10 : Int) - 3).tdiv 2 = 3 := by decide
    rw [this]; omega
  · have : ((10 : Int) - 4).tdiv 2 = 3 := by decide
    rw [this]; omega

theorem create_figure_some (t : Tetris) (size : Int) (t' : Tetris)
    (h : create_figure t = some (size, t')) :
    ∃ figure rng', create_figure_read t.figures_txt t.rng = some (size, figure, rng') ∧
      t' = { t with m_figure := figure, m_size := size, rng := rng' } := by
  unfold create_figure at h
  cases hr : create_figure_read t.figures_txt t.rng with
  | none => rw [hr] at h; exact Option.noConfusion h
  | some p =>
    obtain ⟨sz, figure, rng'⟩ := p
    rw [hr, Option.some_bind] at h
    simp only [Option.some.injEq, Prod.mk.injEq] at h
    exact ⟨figure, rng', by rw [h.1], by rw [← h.2, h.1]⟩

/-- After `init_game` the new figure has size 2 to 4 and is inside the field;
the mode and the catalog file are as before. -/
theorem init_game_spec (t t' : Tetris) (hb : ∀ tok ∈ t.figures_txt.tail, tok ≤ 4)
    (h : init_game t = some t') :
    t'.figures_txt = t.figures_txt ∧ t'.state = t.state ∧ 2 ≤ t'.m_size ∧ t'.m_size ≤ 4 ∧
      FigureInBounds t' := by
  unfold init_game at h
  cases hc : create_figure { t with m_field := create_matrix m_height m_width } with
  | none => rw [hc] at h; exact Option.noConfusion h
  | some p =>
    obtain ⟨size, t1⟩ := p
    rw [hc, Option.some_bind] at h
    obtain ⟨figure, rng', hread, rfl⟩ := create_figure_some _ _ _ hc
    have hsz := create_figure_read_size _ _ _ _ _ hb hread
    simp only [Option.some.injEq] at h
    rw [← h]
    refine ⟨rfl, rfl, hsz.1, hsz.2, ?_⟩
    have hr := spawn_anchor_range size 0 hsz.1 hsz.2 (by decide) (by decide)
    refine FigureInBounds_of_box _ ?_ ?_ ?_ ?_
    · dsimp only; omega
    · dsimp only; omega
    · dsimp only; omega
    · have hh : m_height = 20 := rfl
      dsimp only; omega

/-- After `spawn_figure` the new figure has size 2 to 4 and is inside the
field; the mode and the catalog file are as before. -/
theorem spawn_figure_spec (t t' : Tetris) (hb : ∀ tok ∈ t.figures_txt.tail, tok ≤ 4)
    (h : spawn_figure t = some t') :
    t'.figures_txt = t.figures_txt ∧ t'.state = t.state ∧ 2 ≤ t'.m_size ∧ t'.m_size ≤ 4 ∧
      FigureInBounds t' := by
  unfold spawn_figure at h
  cases hc : create_figure t with
  | none => rw [hc] at h; exact Option.noConfusion h
  | some p =>
    obtain ⟨size, t1⟩ := p
    rw [hc, Option.some_bind] at h
    obtain ⟨figure, rng', hread, rfl⟩ := create_figure_some _ _ _ hc
    have hsz := create_figure_read_size _ _ _ _ _ hb hread
    dsimp only at h
    cases hr : RNG.rand rng' (-3) 3 with
    | none => rw [hr] at h; exact Option.noConfusion h
    | some q =>
      obtain ⟨r, rng2⟩ := q
      rw [hr, Option.some_bind] at h
      have hrr := RNG.rand_range _ _ _ _ _ hr
      simp only [Option.some.injEq] at h
      rw [← h]
      refine ⟨rfl, rfl, hsz.1, hsz.2, ?_⟩
      have hr := spawn_anchor_range size r hsz.1 hsz.2 hrr.1 hrr.2
      refine FigureInBounds_of_box _ ?_ ?_ ?_ ?_
      · dsimp only; omega
      · dsimp only; omega
      · dsimp only; omega
      · have hh : m_height = 20 := rfl
        dsimp only; omega

theorem restart_game_spec (t t' : Tetris) (hb : ∀ tok ∈ t.figures_txt.tail, tok ≤ 4)
    (h : restart_game t = some t') :
    t'.figures_txt = t.figures_txt ∧ t'.state = States.INITIAL ∧ 2 ≤ t'.m_size ∧ t'.m_size ≤ 4 ∧
      FigureInBounds t' := by
  unfold restart_game at h
  cases hc : init_game t with
  | none => rw [hc] at h; exact Option.noConfusion h
  | some t1 =>
    rw [hc, Option.some_bind] at h
    simp only [Option.some.injEq] at h
    obtain ⟨h1, -, h3, h4, h5⟩ := init_game_spec t t1 hb hc
    rw [← h]
    exact ⟨h1, rfl, h3, h4, h5⟩

end Tetris

namespace Tetris

/-- A figure inside the field that is moved one row down is either attached
there or still inside the field. -/
theorem move_figure_down_in_bounds (t : Tetris) (hb : FigureInBounds t)
    (hna : ¬ FigureAttached (move_figure_down t)) : FigureInBounds (move_figure_down t) := by
  intro i j hi0 hi1 hj0 hj1 hne
  obtain ⟨h1, h2, h3, h4⟩ := hb i j hi0 hi1 hj0 hj1 hne
  have hfloor : ¬ (t.m_y + 1 + i + 1 ≥ m_height) := fun hge =>
    hna ⟨i, j, hi0, hi1, hj0, hj1, hne, Or.inl hge⟩
  have hh : m_height = 20 := rfl
  refine ⟨h1, h2, ?_, ?_⟩
  · show 0 ≤ t.m_y + 1 + i
    omega
  · show t.m_y + 1 + i < m_height
    omega

theorem move_figure_left_in_bounds (t : Tetris) (hb : FigureInBounds t) :
    FigureInBounds (move_figure_left t) := by
  by_cases h : FigureInBounds { t with m_x := t.m_x - 1 } ∧
      FigureOnEmptyCells { t with m_x := t.m_x - 1 }
  · rw [move_figure_left_of_legal t h]
    exact h.1
  · rw [move_figure_left_of_illegal t h]
    exact hb

theorem move_figure_right_in_bounds (t : Tetris) (hb : FigureInBounds t) :
    FigureInBounds (move_figure_right t) := by
  by_cases h : FigureInBounds { t with m_x := t.m_x + 1 } ∧
      FigureOnEmptyCells { t with m_x := t.m_x + 1 }
  · rw [move_figure_right_of_legal t h]
    exact h.1
  · rw [move_figure_right_of_illegal t h]
    exact hb

theorem move_figure_left_frame (t : Tetris) :
    (move_figure_left t).figures_txt = t.figures_txt ∧ (move_figure_left t).m_size = t.m_size ∧
      (move_figure_left t).state = t.state := by
  by_cases h : FigureInBounds { t with m_x := t.m_x - 1 } ∧
      FigureOnEmptyCells { t with m_x := t.m_x - 1 }
  · rw [move_figure_left_of_legal t h]
    exact ⟨rfl, rfl, rfl⟩
  · rw [move_figure_left_of_illegal t h]
    exact ⟨rfl, rfl, rfl⟩

theorem move_figure_right_frame (t : Tetris) :
    (move_figure_right t).figures_txt = t.figures_txt ∧ (move_figure_right t).m_size = t.m_size ∧
      (move_figure_right t).state = t.state := by
  by_cases h : FigureInBounds { t with m_x := t.m_x + 1 } ∧
      FigureOnEmptyCells { t with m_x := t.m_x + 1 }
  · rw [move_figure_right_of_legal t h]
    exact ⟨rfl, rfl, rfl⟩
  · rw [move_figure_right_of_illegal t h]
    exact ⟨rfl, rfl, rfl⟩

theorem rotate_figure_frame (t : Tetris) :
    (rotate_figure t).figures_txt = t.figures_txt ∧ (rotate_figure t).m_size = t.m_size ∧
      (rotate_figure t).state = t.state := by
  by_cases h : ¬ FigureInBounds { t with m_figure := rotated_figure t.m_size t.m_figure } ∧
      ¬ FigureAttached { t with m_figure := rotated_figure t.m_size t.m_figure }
  · rw [rotate_figure_of_reject t h]
    exact ⟨rfl, rfl, rfl⟩
  · rw [rotate_figure_of_accept t h]
    exact ⟨rfl, rfl, rfl⟩

/-- After `rotate_figure` a figure that was inside the field is inside the
field or attached. -/
theorem rotate_figure_in_bounds (t : Tetris) (hb : FigureInBounds t)
    (hna : ¬ FigureAttached (rotate_figure t)) : FigureInBounds (rotate_figure t) := by
  by_cases h : ¬ FigureInBounds { t with m_figure := rotated_figure t.m_size t.m_figure } ∧
      ¬ FigureAttached { t with m_figure := rotated_figure t.m_size t.m_figure }
  · rw [rotate_figure_of_reject t h]
    exact hb
  · rw [rotate_figure_of_accept t h] at hna ⊢
    by_contra hcon
    exact h ⟨hcon, hna⟩

/-- `process_key` keeps the invariant of the game loop. -/
theorem process_key_invariant (txt : List Int) (hb : ∀ tok ∈ txt.tail, tok ≤ 4) (key : Int)
    (t t' : Tetris) (hinv : PlayInvariant txt t)
    (hs : t.state = States.MOVING ∨ t.state = States.PAUSE)
    (h : process_key key t = some t') : PlayInvariant txt t' := by
  obtain ⟨htxt, hs2, hs4, hin⟩ := hinv
  have hbt : FigureInBounds t := by
    rcases hs with hs | hs <;> exact hin (by rw [hs]; decide) (by rw [hs]; decide)
  unfold process_key at h
  by_cases hq : key = key_q
  · rw [if_pos hq] at h
    simp only [Option.some.injEq] at h
    rw [← h]
    exact ⟨htxt, hs2, hs4, fun _ hgo => absurd rfl hgo⟩
  rw [if_neg hq] at h
  by_cases hr : key = key_r
  · rw [if_pos hr] at h
    obtain ⟨h1, h2, h3, h4, h5⟩ := restart_game_spec t t' (by rw [htxt]; exact hb) h
    exact ⟨by rw [h1, htxt], h3, h4, fun _ _ => h5⟩
  rw [if_neg hr] at h
  by_cases hp : key = key_p
  · rw [if_pos hp] at h
    simp only [Option.some.injEq] at h
    rw [← h]
    exact ⟨htxt, hs2, hs4, fun _ _ => hbt⟩
  rw [if_neg hp] at h
  by_cases hm : t.state = States.MOVING
  · rw [if_pos hm] at h
    dsimp only at h
    have hmoved : ∃ t1 : Tetris, some (if is_figure_attached t1 = true
          then { t1 with state := States.ATTACHING } else t1) = some t' ∧
        t1.figures_txt = t.figures_txt ∧ t1.m_size = t.m_size ∧ t1.state = t.state ∧
        (¬ FigureAttached t1 → FigureInBounds t1) := by
      by_cases hks : key = key_s
      · rw [if_pos hks] at h
        exact ⟨_, h, rfl, rfl, rfl, move_figure_down_in_bounds t hbt⟩
      rw [if_neg hks] at h
      by_cases hka : key = key_a
      · rw [if_pos hka] at h
        obtain ⟨f1, f2, f3⟩ := move_figure_left_frame t
        exact ⟨_, h, f1, f2, f3, fun _ => move_figure_left_in_bounds t hbt⟩
      rw [if_neg hka] at h
      by_cases hkd : key = key_d
      · rw [if_pos hkd] at h
        obtain ⟨f1, f2, f3⟩ := move_figure_right_frame t
        exact ⟨_, h, f1, f2, f3, fun _ => move_figure_right_in_bounds t hbt⟩
      rw [if_neg hkd] at h
      by_cases hkw : key = key_w
      · rw [if_pos hkw] at h
        obtain ⟨f1, f2, f3⟩ := rotate_figure_frame t
        exact ⟨_, h, f1, f2, f3, rotate_figure_in_bounds t hbt⟩
      rw [if_neg hkw] at h
      exact ⟨_, h, rfl, rfl, rfl, fun _ => hbt⟩
    obtain ⟨t1, h1, f1, f2, f3, f4⟩ := hmoved
    simp only [Option.some.injEq] at h1
    by_cases hatt : is_figure_attached t1 = true
    · rw [if_pos hatt] at h1
      rw [← h1]
      exact ⟨by rw [← htxt, ← f1], by rw [← f2] at hs2; exact hs2, by rw [← f2] at hs4; exact hs4,
        fun hne _ => absurd rfl hne⟩
    · rw [if_neg hatt] at h1
      rw [← h1]
      rw [is_figure_attached_iff] at hatt
      exact ⟨by rw [← htxt, ← f1], by rw [← f2] at hs2; exact hs2, by rw [← f2] at hs4; exact hs4,
        fun _ _ => f4 hatt⟩
  · rw [if_neg hm] at h
    simp only [Option.some.injEq] at h
    rw [← h]
    exact ⟨htxt, hs2, hs4, fun _ _ => hbt⟩

theorem getch_frame (t : Tetris) :
    (getch t).2.figures_txt = t.figures_txt ∧ (getch t).2.m_size = t.m_size ∧
      (getch t).2.state = t.state ∧ (getch t).2.m_figure = t.m_figure ∧
      (getch t).2.m_x = t.m_x ∧ (getch t).2.m_y = t.m_y := by
  unfold getch
  cases t.keys <;> exact ⟨rfl, rfl, rfl, rfl, rfl, rfl⟩

/-- The invariant of the game loop looks at the catalog file, the figure, its
anchor and the mode only. -/
theorem PlayInvariant_congr (txt : List Int) (t t' : Tetris) (h1 : t'.figures_txt = t.figures_txt)
    (h2 : t'.m_size = t.m_size) (h3 : t'.state = t.state) (h4 : t'.m_figure = t.m_figure)
    (h5 : t'.m_x = t.m_x) (h6 : t'.m_y = t.m_y) (hinv : PlayInvariant txt t) :
    PlayInvariant txt t' := by
  obtain ⟨htxt, hs2, hs4, hin⟩ := hinv
  refine ⟨by rw [h1, htxt], by rw [h2]; exact hs2, by rw [h2]; exact hs4, ?_⟩
  intro ha hg
  have hb := hin (by rw [← h3]; exact ha) (by rw [← h3]; exact hg)
  unfold FigureInBounds at hb ⊢
  rw [h2, h4, h5, h6]
  exact hb

/-- `process_user_input` keeps the invariant of the game loop. -/
theorem process_user_input_invariant (txt : List Int) (hb : ∀ tok ∈ txt.tail, tok ≤ 4)
    (t t' : Tetris) (hinv : PlayInvariant txt t)
    (hs : t.state = States.MOVING ∨ t.state = States.PAUSE)
    (h : process_user_input t = some t') : PlayInvariant txt t' := by
  obtain ⟨f1, f2, f3, f4, f5, f6⟩ := getch_frame t
  exact process_key_invariant txt hb (getch t).1 (getch t).2 t'
    (PlayInvariant_congr txt t _ f1 f2 f3 f4 f5 f6 hinv) (by rw [f3]; exact hs) h

end Tetris

namespace Tetris

/-- `shift_figure` keeps the invariant of the game loop. -/
theorem shift_figure_invariant (txt : List Int) (t : Tetris) (hinv : PlayInvariant txt t)
    (hs : t.state = States.SHIFTING) : PlayInvariant txt (shift_figure t) := by
  obtain ⟨htxt, hs2, hs4, hin⟩ := hinv
  have hbt : FigureInBounds t := hin (by rw [hs]; decide) (by rw [hs]; decide)
  unfold shift_figure
  cases hatt : is_figure_attached t with
  | true =>
    simp only [Bool.not_true, Bool.false_eq_true, if_false, hatt, if_true]
    exact ⟨htxt, hs2, hs4, fun hne _ => absurd rfl hne⟩
  | false =>
    simp only [Bool.not_false, if_true]
    cases hatt' : is_figure_attached { t with m_y := t.m_y + 1, state := States.MOVING } with
    | true =>
      simp only [if_true]
      exact ⟨htxt, hs2, hs4, fun hne _ => absurd rfl hne⟩
    | false =>
      simp only [Bool.false_eq_true, if_false]
      refine ⟨htxt, hs2, hs4, fun _ _ => ?_⟩
      have hna : ¬ FigureAttached (move_figure_down t) := by
        intro hcon
        have : FigureAttached { t with m_y := t.m_y + 1, state := States.MOVING } := hcon
        rw [← is_figure_attached_iff, hatt'] at this
        exact Bool.noConfusion this
      exact move_figure_down_in_bounds t hbt hna

theorem wait_for_start_loop_frame (t : Tetris) : ∀ (ks : List Int) (t' : Tetris),
    wait_for_start_loop t ks = some t' →
    t'.figures_txt = t.figures_txt ∧ t'.m_size = t.m_size ∧ t'.m_figure = t.m_figure ∧
      t'.m_x = t.m_x ∧ t'.m_y = t.m_y ∧ t'.m_field = t.m_field ∧
      (t'.state = t.state ∨ t'.state = States.MOVING) := by
  intro ks
  induction ks with
  | nil =>
    intro t' h
    exact Option.noConfusion h
  | cons k ks ih =>
    intro t' h
    rw [wait_for_start_loop] at h
    by_cases he : k % 256 ≠ key_enter
    · rw [if_pos he] at h
      by_cases hq : k % 256 = key_q
      · rw [if_pos hq] at h
        simp only [Option.some.injEq] at h
        rw [← h]
        exact ⟨rfl, rfl, rfl, rfl, rfl, rfl, Or.inl rfl⟩
      · rw [if_neg hq] at h
        exact ih t' h
    · rw [if_neg he] at h
      simp only [Option.some.injEq] at h
      rw [← h]
      exact ⟨rfl, rfl, rfl, rfl, rfl, rfl, Or.inr rfl⟩

/-- `wait_for_start` keeps the invariant of the game loop. -/
theorem wait_for_start_invariant (txt : List Int) (t t' : Tetris) (hinv : PlayInvariant txt t)
    (hs : t.state = States.INITIAL) (h : wait_for_start t = some t') : PlayInvariant txt t' := by
  obtain ⟨f1, f2, f3, f4, f5, -, f7⟩ := wait_for_start_loop_frame t t.keys t' h
  obtain ⟨htxt, hs2, hs4, hin⟩ := hinv
  have hbt : FigureInBounds t := hin (by rw [hs]; decide) (by rw [hs]; decide)
  refine ⟨by rw [f1, htxt], by rw [f2]; exact hs2, by rw [f2]; exact hs4, fun _ _ => ?_⟩
  unfold FigureInBounds at hbt ⊢
  rw [f2, f3, f4, f5]
  exact hbt

theorem wait_to_quit_or_restart_loop_frame (t : Tetris)
    (hb : ∀ tok ∈ t.figures_txt.tail, tok ≤ 4) : ∀ (ks : List Int) (t' : Tetris),
    wait_to_quit_or_restart_loop t ks = some t' → t'.figures_txt = t.figures_txt := by
  intro ks
  induction ks with
  | nil =>
    intro t' h
    exact Option.noConfusion h
  | cons k ks ih =>
    intro t' h
    rw [wait_to_quit_or_restart_loop] at h
    by_cases hq : k % 256 ≠ key_q
    · rw [if_pos hq] at h
      by_cases hr : k % 256 = key_r ∨ k % 256 = key_enter
      · rw [if_pos hr] at h
        exact (restart_game_spec { t with keys := ks } t' hb h).1
      · rw [if_neg hr] at h
        exact ih t' h
    · rw [if_neg hq] at h
      simp only [Option.some.injEq] at h
      rw [← h]

theorem render_game_frame (t : Tetris) :
    (render_game t).figures_txt = t.figures_txt ∧ (render_game t).m_size = t.m_size ∧
      (render_game t).state = t.state ∧ (render_game t).m_figure = t.m_figure ∧
      (render_game t).m_x = t.m_x ∧ (render_game t).m_y = t.m_y := by
  unfold render_game
  split_ifs <;> exact ⟨rfl, rfl, rfl, rfl, rfl, rfl⟩

/-- After `render_game`, outside the three message screens, the field cells
under a figure that is inside the field are empty: the drawing wipes them. -/
theorem render_game_on_empty_cells (t : Tetris)
    (hs : t.state ≠ States.INITIAL ∧ t.state ≠ States.GAME_OVER ∧ t.state ≠ States.PAUSE)
    (hb : FigureInBounds t) : FigureOnEmptyCells (render_game t) := by
  unfold render_game
  rw [if_pos hs]
  intro i j hi0 hi1 hj0 hj1 hne
  obtain ⟨h1, h2, h3, h4⟩ := hb i j hi0 hi1 hj0 hj1 hne
  show stamp_figure (add_figure_to_field t) 0 (t.m_y + i) (t.m_x + j) = 0
  refine (stamp_figure_apply (add_figure_to_field t) 0 _ _).1 ?_
  unfold Covered add_figure_to_field
  dsimp only
  have ei : t.m_y + i - t.m_y = i := by omega
  have ej : t.m_x + j - t.m_x = j := by omega
  rw [ei, ej]
  exact ⟨hi0, hi1, hj0, hj1, hne, h1, h2, h3, h4⟩

/-- `attach_figure` ends with a new figure inside the field, in mode `MOVING`. -/
theorem attach_figure_invariant (txt : List Int) (hb : ∀ tok ∈ txt.tail, tok ≤ 4)
    (t t' : Tetris) (htxt : t.figures_txt = txt) (h : attach_figure t = some t') :
    PlayInvariant txt t' ∧ t'.state = States.MOVING := by
  unfold attach_figure at h
  cases hc : clear_rows (add_figure_to_field t) with
  | none => rw [hc] at h; exact Option.noConfusion h
  | some t1 =>
    rw [hc, Option.some_bind] at h
    have h1 : t1.figures_txt = txt := by
      unfold clear_rows at hc
      cases hl : clear_rows_loop clear_rows_fuel (m_height - 1) (add_figure_to_field t).m_field with
      | none => rw [hl] at hc; exact Option.noConfusion hc
      | some g =>
        rw [hl] at hc
        simp only [Option.map_some', Option.some.injEq] at hc
        rw [← hc]
        exact htxt
    cases hw : (if is_game_over t1 = true
        then wait_to_quit_or_restart (render_game { t1 with state := States.GAME_OVER })
        else some t1) with
    | none => rw [hw] at h; exact Option.noConfusion h
    | some t2 =>
      rw [hw, Option.some_bind] at h
      have h2 : t2.figures_txt = txt := by
        by_cases hgo : is_game_over t1 = true
        · rw [if_pos hgo] at hw
          have hr := (render_game_frame { t1 with state := States.GAME_OVER }).1
          have := wait_to_quit_or_restart_loop_frame
            (render_game { t1 with state := States.GAME_OVER })
            (by rw [hr]; dsimp only; rw [h1]; exact hb) _ t2 hw
          rw [this, hr]
          exact h1
        · rw [if_neg hgo] at hw
          simp only [Option.some.injEq] at hw
          rw [← hw]
          exact h1
      cases hsp : spawn_figure t2 with
      | none => rw [hsp] at h; exact Option.noConfusion h
      | some t3 =>
        rw [hsp, Option.some_bind] at h
        simp only [Option.some.injEq] at h
        obtain ⟨g1, -, g3, g4, g5⟩ := spawn_figure_spec t2 t3 (by rw [h2]; exact hb) hsp
        rw [← h]
        exact ⟨⟨by rw [← h2, ← g1], g3, g4, fun _ _ => g5⟩, rfl⟩

end Tetris

namespace Tetris

/-- One pass of the loop of `play` keeps the invariant of the game loop, and
ends, in the modes `MOVING` and `SHIFTING`, with the figure on empty cells. -/
theorem play_iteration_invariant (txt : List Int) (hb : ∀ tok ∈ txt.tail, tok ≤ 4)
    (tc tc' : Tetris × Int) (hinv : PlayInvariant txt tc.1)
    (h : play_iteration tc = some tc') :
    PlayInvariant txt tc'.1 ∧
      (tc'.1.state = States.MOVING ∨ tc'.1.state = States.SHIFTING → FigureOnEmptyCells tc'.1) := by
  unfold play_iteration at h
  have hswitch : ∀ t1 : Tetris,
      (match tc.1.state with
        | States.INITIAL => wait_for_start tc.1
        | States.MOVING => process_user_input tc.1
        | States.SHIFTING => some (shift_figure tc.1)
        | States.ATTACHING => attach_figure tc.1
        | States.PAUSE => process_user_input tc.1
        | States.GAME_OVER => some tc.1) = some t1 → PlayInvariant txt t1 := by
    intro t1 h1
    cases hs : tc.1.state with
    | INITIAL =>
      rw [hs] at h1
      exact wait_for_start_invariant txt tc.1 t1 hinv hs h1
    | MOVING =>
      rw [hs] at h1
      exact process_user_input_invariant txt hb tc.1 t1 hinv (Or.inl hs) h1
    | SHIFTING =>
      rw [hs] at h1
      simp only [Option.some.injEq] at h1
      rw [← h1]
      exact shift_figure_invariant txt tc.1 hinv hs
    | ATTACHING =>
      rw [hs] at h1
      exact (attach_figure_invariant txt hb tc.1 t1 hinv.1 h1).1
    | PAUSE =>
      rw [hs] at h1
      exact process_user_input_invariant txt hb tc.1 t1 hinv (Or.inr hs) h1
    | GAME_OVER =>
      rw [hs] at h1
      simp only [Option.some.injEq] at h1
      rw [← h1]
      exact hinv
  cases hm : (match tc.1.state with
        | States.INITIAL => wait_for_start tc.1
        | States.MOVING => process_user_input tc.1
        | States.SHIFTING => some (shift_figure tc.1)
        | States.ATTACHING => attach_figure tc.1
        | States.PAUSE => process_user_input tc.1
        | States.GAME_OVER => some tc.1) with
  | none => rw [hm] at h; exact Option.noConfusion h
  | some t1 =>
    rw [hm, Option.some_bind] at h
    have hinv1 := hswitch t1 hm
    simp only [Option.some.injEq] at h
    have htick : ∀ t2 : Tetris, t2.figures_txt = t1.figures_txt → t2.m_size = t1.m_size →
        t2.m_figure = t1.m_figure → t2.m_x = t1.m_x → t2.m_y = t1.m_y →
        (t2.state = t1.state ∨ (t1.state = States.MOVING ∧ t2.state = States.SHIFTING)) →
        PlayInvariant txt (render_game t2) ∧
        ((render_game t2).state = States.MOVING ∨ (render_game t2).state = States.SHIFTING →
          FigureOnEmptyCells (render_game t2)) := by
      intro t2 e1 e2 e3 e4 e5 e6
      obtain ⟨htxt, hs2, hs4, hin⟩ := hinv1
      have hinv2 : PlayInvariant txt t2 := by
        refine ⟨by rw [e1, htxt], by rw [e2]; exact hs2, by rw [e2]; exact hs4, ?_⟩
        intro ha hg
        have hb1 : FigureInBounds t1 := by
          rcases e6 with e6 | ⟨e6, -⟩
          · exact hin (by rw [← e6]; exact ha) (by rw [← e6]; exact hg)
          · exact hin (by rw [e6]; decide) (by rw [e6]; decide)
        unfold FigureInBounds at hb1 ⊢
        rw [e2, e3, e4, e5]
        exact hb1
      obtain ⟨f1, f2, f3, f4, f5, f6⟩ := render_game_frame t2
      refine ⟨PlayInvariant_congr txt t2 _ f1 f2 f3 f4 f5 f6 hinv2, ?_⟩
      intro hmode
      rw [f3] at hmode
      refine render_game_on_empty_cells t2 ⟨?_, ?_, ?_⟩
        (hinv2.2.2.2 ?_ ?_) <;>
        rcases hmode with hmode | hmode <;> rw [hmode] <;> decide
    rw [← h]
    by_cases hmv : t1.state = States.MOVING
    · rw [if_pos hmv]
      by_cases hcount : tc.2 + 1 = 20
      · rw [if_pos hcount]
        exact htick _ rfl rfl rfl rfl rfl (Or.inr ⟨hmv, rfl⟩)
      · rw [if_neg hcount]
        exact htick _ rfl rfl rfl rfl rfl (Or.inl rfl)
    · rw [if_neg hmv]
      exact htick _ rfl rfl rfl rfl rfl (Or.inl rfl)

/-- Every number of passes of the loop of `play` keeps the invariant of the game
loop together with "the figure is on empty cells in the modes `MOVING` and
`SHIFTING`". -/
theorem play_loop_invariant (txt : List Int) (hb : ∀ tok ∈ txt.tail, tok ≤ 4) (n : Nat) :
    ∀ tc tc' : Tetris × Int, PlayInvariant txt tc.1 →
    (tc.1.state = States.MOVING ∨ tc.1.state = States.SHIFTING → FigureOnEmptyCells tc.1) →
    play_loop n tc = some tc' →
    PlayInvariant txt tc'.1 ∧
      (tc'.1.state = States.MOVING ∨ tc'.1.state = States.SHIFTING → FigureOnEmptyCells tc'.1) := by
  induction n with
  | zero =>
    intro tc tc' h1 h2 h
    rw [play_loop] at h
    simp only [Option.some.injEq] at h
    rw [← h]
    exact ⟨h1, h2⟩
  | succ n ih =>
    intro tc tc' h1 h2 h
    rw [play_loop] at h
    by_cases hgo : tc.1.state ≠ States.GAME_OVER
    · rw [if_pos hgo] at h
      cases hit : play_iteration tc with
      | none => rw [hit] at h; exact Option.noConfusion h
      | some tc1 =>
        rw [hit, Option.some_bind] at h
        obtain ⟨g1, g2⟩ := play_iteration_invariant txt hb tc tc1 h1 hit
        exact ih tc1 tc' g1 g2 h
    · rw [if_neg hgo] at h
      simp only [Option.some.injEq] at h
      rw [← h]
      exact ⟨h1, h2⟩

end Tetris

/-! ## Gravity -/

namespace Tetris

theorem shift_figure_of_attached (t : Tetris) (h : FigureAttached t) :
    shift_figure t = { t with state := States.ATTACHING } := by
  rw [← is_figure_attached_iff] at h
  unfold shift_figure
  simp [h]

theorem shift_figure_of_not_attached (t : Tetris) (h : ¬ FigureAttached t) :
    (FigureAttached { t with m_y := t.m_y + 1 } →
      shift_figure t = { t with m_y := t.m_y + 1, state := States.ATTACHING }) ∧
    (¬ FigureAttached { t with m_y := t.m_y + 1 } →
      shift_figure t = { t with m_y := t.m_y + 1, state := States.MOVING }) := by
  rw [← is_figure_attached_iff] at h
  have hf : is_figure_attached t = false := by
    cases hc : is_figure_attached t with
    | false => rfl
    | true => exact absurd hc h
  have hsame : is_figure_attached { t with m_y := t.m_y + 1, state := States.MOVING }
      = is_figure_attached { t with m_y := t.m_y + 1 } := rfl
  constructor
  · intro h'
    rw [← is_figure_attached_iff] at h'
    unfold shift_figure
    simp [hf, hsame, h']
  · intro h'
    rw [← is_figure_attached_iff] at h'
    unfold shift_figure
    simp [hf, hsame, h']

/-- A figure that is inside the field, on empty cells and not attached is,
one row lower, still inside the field and on empty cells. -/
theorem descend_safe (t : Tetris) (hb : FigureInBounds t) (hna : ¬ FigureAttached t) :
    FigureInBounds { t with m_y := t.m_y + 1 } ∧ FigureOnEmptyCells { t with m_y := t.m_y + 1 } := by
  have hh : m_height = 20 := rfl
  constructor
  · intro i j hi0 hi1 hj0 hj1 hne
    obtain ⟨h1, h2, h3, h4⟩ := hb i j hi0 hi1 hj0 hj1 hne
    have hfloor : ¬ (t.m_y + i + 1 ≥ m_height) := fun hge =>
      hna ⟨i, j, hi0, hi1, hj0, hj1, hne, Or.inl hge⟩
    refine ⟨h1, h2, ?_, ?_⟩
    · show 0 ≤ t.m_y + 1 + i
      omega
    · show t.m_y + 1 + i < m_height
      omega
  · intro i j hi0 hi1 hj0 hj1 hne
    show t.m_field (t.m_y + 1 + i) (t.m_x + j) = 0
    by_contra hcon
    have e : t.m_y + 1 + i = t.m_y + i + 1 := by omega
    rw [e] at hcon
    exact hna ⟨i, j, hi0, hi1, hj0, hj1, hne, Or.inr hcon⟩

/-- C19: from a state whose figure is inside the field and on empty cells, with
`is_figure_attached` false, the increase of `m_y` by 1 done by
`move_figure_down` and by `shift_figure` leaves the figure inside the field and
on empty cells. -/
theorem descend_keeps_invariant (t : Tetris) (hb : FigureInBounds t)
    (_he : FigureOnEmptyCells t) (hna : is_figure_attached t = false) :
    (FigureInBounds (move_figure_down t) ∧ FigureOnEmptyCells (move_figure_down t)) ∧
    ((shift_figure t).m_y = t.m_y + 1 ∧ FigureInBounds (shift_figure t) ∧
      FigureOnEmptyCells (shift_figure t)) := by
  have hna' : ¬ FigureAttached t := by
    rw [← is_figure_attached_iff, hna]
    exact Bool.false_ne_true
  have hsafe := descend_safe t hb hna'
  refine ⟨hsafe, ?_⟩
  by_cases h' : FigureAttached { t with m_y := t.m_y + 1 }
  · rw [(shift_figure_of_not_attached t hna').1 h']
    exact ⟨rfl, hsafe.1, hsafe.2⟩
  · rw [(shift_figure_of_not_attached t hna').2 h']
    exact ⟨rfl, hsafe.1, hsafe.2⟩

/-- C16: the gravity step.  In mode `SHIFTING` with the figure inside the field,
`shift_figure` increases `m_y` by 1 when the figure was not attached and leaves
it otherwise; `m_x`, the shape and the field are unchanged; the mode ends
`ATTACHING` when the figure is attached where it ends and `MOVING` otherwise,
never `SHIFTING`. -/
theorem shift_figure_spec (t : Tetris) (_hs : t.state = States.SHIFTING)
    (_hb : FigureInBounds t) :
    (¬ FigureAttached t → (shift_figure t).m_y = t.m_y + 1) ∧
    (FigureAttached t → (shift_figure t).m_y = t.m_y) ∧
    (shift_figure t).m_x = t.m_x ∧ (shift_figure t).m_figure = t.m_figure ∧
    (shift_figure t).m_size = t.m_size ∧ (shift_figure t).m_field = t.m_field ∧
    (FigureAttached (shift_figure t) → (shift_figure t).state = States.ATTACHING) ∧
    (¬ FigureAttached (shift_figure t) → (shift_figure t).state = States.MOVING) ∧
    (shift_figure t).state ≠ States.SHIFTING := by
  by_cases h : FigureAttached t
  · rw [shift_figure_of_attached t h]
    refine ⟨fun hn => absurd h hn, fun _ => rfl, rfl, rfl, rfl, rfl, fun _ => rfl,
      fun hn => absurd (show FigureAttached { t with state := States.ATTACHING } from h) hn, ?_⟩
    intro hcon
    exact States.noConfusion hcon
  · by_cases h' : FigureAttached { t with m_y := t.m_y + 1 }
    · rw [(shift_figure_of_not_attached t h).1 h']
      refine ⟨fun _ => rfl, fun ha => absurd ha h, rfl, rfl, rfl, rfl, fun _ => rfl,
        fun hn => absurd (show FigureAttached
          { t with m_y := t.m_y + 1, state := States.ATTACHING } from h') hn, ?_⟩
      intro hcon
      exact States.noConfusion hcon
    · rw [(shift_figure_of_not_attached t h).2 h']
      refine ⟨fun _ => rfl, fun ha => absurd ha h, rfl, rfl, rfl, rfl,
        fun ha => absurd (show FigureAttached { t with m_y := t.m_y + 1 } from ha) h',
        fun _ => rfl, ?_⟩
      intro hcon
      exact States.noConfusion hcon

end Tetris

/-! ## Merging and drawing the figure -/

namespace Tetris

/-- C11, counterexample: in `overlap_state` the figure fails the fit check, and
`add_figure_to_field` changes the field cell `(1, 4)` from empty to occupied. -/
theorem add_figure_to_field_writes_on_failed_fit :
    does_figure_fit overlap_state = false ∧ overlap_state.m_field 1 4 = 0 ∧
    (add_figure_to_field overlap_state).m_field 1 4 = 1 := by
  decide

/-- C11, amended: in every engine state, also when the figure fails the bounds
check or the fit check, `add_figure_to_field` writes 1 into the field cells
that lie inside the field under an occupied figure cell and leaves every other
cell, and everything but the field, unchanged. -/
theorem add_figure_to_field_spec (t : Tetris) (y x : Int) :
    (Covered t y x → (add_figure_to_field t).m_field y x = 1) ∧
    (¬ Covered t y x → (add_figure_to_field t).m_field y x = t.m_field y x) ∧
    (add_figure_to_field t).m_figure = t.m_figure ∧ (add_figure_to_field t).m_size = t.m_size ∧
    (add_figure_to_field t).m_x = t.m_x ∧ (add_figure_to_field t).m_y = t.m_y ∧
    (add_figure_to_field t).state = t.state :=
  ⟨(stamp_figure_apply t 1 y x).1, (stamp_figure_apply t 1 y x).2, rfl, rfl, rfl, rfl, rfl⟩

theorem Covered_add_figure_to_field (t : Tetris) (y x : Int) :
    Covered (add_figure_to_field t) y x ↔ Covered t y x := Iff.rfl

/-- The overlay pair of `render_game` in closed form: 0 on the field cells under
the figure, the old value elsewhere. -/
theorem remove_add_apply (t : Tetris) (y x : Int) :
    (Covered t y x → (remove_figure_from_field (add_figure_to_field t)).m_field y x = 0) ∧
    (¬ Covered t y x →
      (remove_figure_from_field (add_figure_to_field t)).m_field y x = t.m_field y x) := by
  constructor
  · intro hc
    exact (stamp_figure_apply (add_figure_to_field t) 0 y x).1 hc
  · intro hc
    have h1 := (stamp_figure_apply (add_figure_to_field t) 0 y x).2 hc
    have h2 := (stamp_figure_apply t 1 y x).2 hc
    show stamp_figure (add_figure_to_field t) 0 y x = t.m_field y x
    rw [h1]
    exact h2

/-- C12, counterexample: `overlap_state` is in a mode in which `render_game`
draws the field, its field cell `(2, 4)` is occupied, and after the overlay
pair, and so after `render_game`, that cell is empty. -/
theorem render_game_wipes_block :
    (overlap_state.state ≠ States.INITIAL ∧ overlap_state.state ≠ States.GAME_OVER ∧
      overlap_state.state ≠ States.PAUSE) ∧
    overlap_state.m_field 2 4 = 1 ∧
    (remove_figure_from_field (add_figure_to_field overlap_state)).m_field 2 4 = 0 ∧
    (render_game overlap_state).m_field 2 4 = 0 := by
  decide

/-- C12, amended: in every engine state in a mode other than `INITIAL`, `PAUSE`
and `GAME_OVER`, the overlay pair of `render_game` leaves every field cell that
is not under the figure equal to its value before the draw and leaves 0 in the
field cells under the figure; so when the field cells under the figure were
empty, every field cell, and the whole engine state, is as before the draw. -/
theorem render_game_field (t : Tetris)
    (hmode : t.state ≠ States.INITIAL ∧ t.state ≠ States.PAUSE ∧ t.state ≠ States.GAME_OVER) :
    render_game t = remove_figure_from_field (add_figure_to_field t) ∧
    (∀ y x : Int, ¬ Covered t y x → (render_game t).m_field y x = t.m_field y x) ∧
    (∀ y x : Int, Covered t y x → (render_game t).m_field y x = 0) ∧
    ((∀ y x : Int, Covered t y x → t.m_field y x = 0) →
      (∀ y x : Int, (render_game t).m_field y x = t.m_field y x) ∧ render_game t = t) := by
  have hr : render_game t = remove_figure_from_field (add_figure_to_field t) := by
    unfold render_game
    rw [if_pos ⟨hmode.1, hmode.2.2, hmode.2.1⟩]
  rw [hr]
  refine ⟨rfl, fun y x hc => (remove_add_apply t y x).2 hc,
    fun y x hc => (remove_add_apply t y x).1 hc, ?_⟩
  intro hempty
  have hall : ∀ y x : Int,
      (remove_figure_from_field (add_figure_to_field t)).m_field y x = t.m_field y x := by
    intro y x
    by_cases hc : Covered t y x
    · rw [(remove_add_apply t y x).1 hc, hempty y x hc]
    · exact (remove_add_apply t y x).2 hc
  refine ⟨hall, ?_⟩
  have hfield : (remove_figure_from_field (add_figure_to_field t)).m_field = t.m_field := by
    funext y x
    exact hall y x
  have hstruct : remove_figure_from_field (add_figure_to_field t)
      = { t with m_field := (remove_figure_from_field (add_figure_to_field t)).m_field } := rfl
  rw [hstruct, hfield]

end Tetris

/-! ## Restart, and rotation next to blocks and walls -/

namespace Tetris

theorem any_pairs (P : Int × Int → Bool) (L1 L2 : List Int) :
    ((L1.map fun i => L2.map fun j => (i, j)).flatten.any P) =
      L1.any fun i => L2.any fun j => P (i, j) := by
  have inner : ∀ (i : Int) (L : List Int),
      (L.map fun j => (i, j)).any P = L.any fun j => P (i, j) := by
    intro i L
    induction L with
    | nil => rfl
    | cons j L ih' => rw [List.map_cons, List.any_cons, List.any_cons, ih']
  rw [List.any_flatten]
  induction L1 with
  | nil => rfl
  | cons i L1 ih => rw [List.map_cons, List.any_cons, List.any_cons, ih, inner]

/-- The scan of `is_figure_attached` with its reads returns what
`is_figure_attached` returns. -/
theorem is_figure_attached_scan_fst (t : Tetris) :
    (is_figure_attached_scan t (figure_cells t.m_size)).1 = is_figure_attached t := by
  have key : ∀ cells : List (Int × Int), (is_figure_attached_scan t cells).1 =
      cells.any fun c => decide (t.m_figure c.1 c.2 ≠ 0) &&
        (decide (t.m_y + c.1 + 1 ≥ m_height) ||
          decide (t.m_field (t.m_y + c.1 + 1) (t.m_x + c.2) ≠ 0)) := by
    intro cells
    induction cells with
    | nil => rfl
    | cons c cells ih =>
      obtain ⟨i, j⟩ := c
      rw [is_figure_attached_scan, List.any_cons]
      by_cases h1 : t.m_figure i j ≠ 0
      · rw [if_pos h1]
        by_cases h2 : t.m_y + i + 1 ≥ m_height
        · rw [if_pos h2]
          simp [h1, h2]
        · rw [if_neg h2]
          by_cases h3 : t.m_field (t.m_y + i + 1) (t.m_x + j) ≠ 0
          · rw [if_pos h3]
            simp [h1, h3]
          · rw [if_neg h3, ih]
            simp [h1, h2, h3]
      · rw [if_neg h1, ih]
        simp [h1]
  rw [key]
  unfold is_figure_attached figure_cells
  exact any_pairs _ _ _

/-- C13 (the code at the failing input): with the square attached at `m_y = 0`
and `r` pressed at the game-over prompt, `attach_figure` returns with an empty
field and `m_y = 0`, but in mode `MOVING`, not `INITIAL`. -/
theorem attach_figure_restart_keeps_playing :
    is_game_over restart_state = true ∧
    (attach_figure restart_state).map (fun t => (t.state, t.m_y,
      (List.range 20).all fun y => (List.range 10).all fun x => decide (t.m_field y x = 0)))
      = some (States.MOVING, 0, true) := by
  decide

/-- C14 (the code at the failing input): the pole beside the wall is inside the
field and on empty cells; `rotate_figure` turns it, and the turned pole lies on
the occupied cell `(5, 6)` of the wall. -/
theorem rotate_figure_into_wall :
    is_figure_in_field pole_by_wall_state = true ∧ does_figure_fit pole_by_wall_state = true ∧
    is_figure_attached pole_by_wall_state = false ∧
    (rotate_figure pole_by_wall_state).m_figure 1 2 = 1 ∧
    (rotate_figure pole_by_wall_state).m_field 5 6 = 1 ∧
    does_figure_fit (rotate_figure pole_by_wall_state) = false := by
  decide

/-- C15 (the code at the failing input): the pole in column 0 is inside the
field and on empty cells; `rotate_figure` on it reads `m_field[6][-1]`, a cell
outside the field. -/
theorem rotate_figure_reads_outside :
    is_figure_in_field pole_at_edge_state = true ∧ does_figure_fit pole_at_edge_state = true ∧
    rotate_figure_reads pole_at_edge_state = [(6, -1), (6, 0), (6, 1)] ∧
    is_block_in_field (-1) 6 = false := by
  decide

end Tetris

/-! ## The spawn anchor -/

namespace Tetris

/-- The anchor `spawn_figure` computes: the centred column plus a jitter value
between -3 and 3, and row 0. -/
theorem spawn_figure_anchor_form (t t' : Tetris) (h : spawn_figure t = some t') :
    (∃ r : Int, -3 ≤ r ∧ r ≤ 3 ∧ t'.m_x = (m_width - t'.m_size).tdiv 2 + r) ∧ t'.m_y = 0 := by
  unfold spawn_figure at h
  cases hc : create_figure t with
  | none => rw [hc] at h; exact Option.noConfusion h
  | some p =>
    obtain ⟨size, t1⟩ := p
    rw [hc, Option.some_bind] at h
    dsimp only at h
    cases hr : RNG.rand t1.rng (-3) 3 with
    | none => rw [hr] at h; exact Option.noConfusion h
    | some q =>
      obtain ⟨r, rng2⟩ := q
      rw [hr, Option.some_bind] at h
      have hrr := RNG.rand_range _ _ _ _ _ hr
      simp only [Option.some.injEq] at h
      rw [← h]
      exact ⟨⟨r, hrr.1, hrr.2, rfl⟩, rfl⟩

/-- C20: with `m_width = 10` and `m_height = 20`, for every size `s` from 2 to 4
and every jitter `r` from -3 to 3 the spawn anchor `(10 - s) / 2 + r` satisfies
`0 ≤ m_x`, `m_x + s ≤ 10` and `s ≤ 20`; the anchor `spawn_figure` computes has
that form with `m_y = 0`, so the square of a new figure of size 2 to 4 is inside
the field (on the catalog of the 2 × 2 square with jitter 0 it returns the
anchor `(4, 0)`); for `s = 5` the jitter -3 gives `m_x = -1`, as `spawn_figure` does on
a catalog with a shape of size 5. -/
theorem spawn_figure_in_field :
    (m_width = 10 ∧ m_height = 20) ∧
    (∀ s r : Int, 2 ≤ s → s ≤ 4 → -3 ≤ r → r ≤ 3 →
      0 ≤ (m_width - s).tdiv 2 + r ∧ (m_width - s).tdiv 2 + r + s ≤ m_width ∧ s ≤ m_height) ∧
    (∀ t t' : Tetris, spawn_figure t = some t' →
      (∃ r : Int, -3 ≤ r ∧ r ≤ 3 ∧ t'.m_x = (m_width - t'.m_size).tdiv 2 + r) ∧ t'.m_y = 0 ∧
      (2 ≤ t'.m_size → t'.m_size ≤ 4 →
        0 ≤ t'.m_x ∧ t'.m_x + t'.m_size ≤ m_width ∧ t'.m_size ≤ m_height ∧
        ∀ i j : Int, 0 ≤ i → i < t'.m_size → 0 ≤ j → j < t'.m_size →
          is_block_in_field (t'.m_x + j) (t'.m_y + i) = true)) ∧
    (spawn_figure overlap_state).map (fun t => (t.m_size, t.m_x, t.m_y)) = some (2, 4, 0) ∧
    ((∃ r : Int, -3 ≤ r ∧ r ≤ 3 ∧ (m_width - 5).tdiv 2 + r < 0) ∧
      (spawn_figure spawn_five_state).map (fun t => (t.m_size, t.m_x, t.m_y)) = some (5, -1, 0)) := by
  have hh : m_height = 20 := rfl
  refine ⟨⟨rfl, rfl⟩, ?_, ?_, by decide, ⟨-3, by decide, by decide, by decide⟩, by decide⟩
  · intro s r h2 h4 hr0 hr1
    have := spawn_anchor_range s r h2 h4 hr0 hr1
    exact ⟨this.1, this.2, by omega⟩
  · intro t t' h
    obtain ⟨⟨r, hr0, hr1, hx⟩, hy⟩ := spawn_figure_anchor_form t t' h
    refine ⟨⟨r, hr0, hr1, hx⟩, hy, ?_⟩
    intro h2 h4
    have hrange := spawn_anchor_range t'.m_size r h2 h4 hr0 hr1
    rw [← hx] at hrange
    refine ⟨hrange.1, hrange.2, by omega, ?_⟩
    intro i j hi0 hi1 hj0 hj1
    rw [is_block_in_field_iff, hy]
    omega

end Tetris

/-! ## The theorems at concrete inputs -/

namespace Tetris

/-- C5 at a concrete input: four rotations of the bar give back its cell `(0, 1)`. -/
theorem rotated_figure_four_witness :
    rotated_figure 2 (rotated_figure 2 (rotated_figure 2 (rotated_figure 2 bar_figure))) 0 1
      = bar_figure 0 1 :=
  rotated_figure_four 2 bar_figure 0 1 (by decide) (by decide) (by decide) (by decide)

/-- C9 at a concrete input: the square at the top of an empty field moves left
and back right to where it was. -/
theorem move_figure_inverse_witness :
    (move_figure_left square_state).m_x ≠ square_state.m_x ∧
    move_figure_right (move_figure_left square_state) = square_state :=
  ⟨by decide,
    (move_figure_inverse square_state ((is_figure_in_field_iff _).1 (by decide))
      ((does_figure_fit_iff _).1 (by decide))).1 (by decide)⟩

/-- C8 at a concrete input: the square dropped in column 4, with a catalog and a
generator that give the next figure. -/
theorem soft_drop_scenario_witness :
    ∃ s18 s' : Tetris,
      process_user_input_times 18 (soft_drop_state (create_matrix m_height m_width) square_figure
        4 0 States.MOVING [1, 0] (List.replicate 18 key_s ++ []) catalog_square) = some s18 ∧
      attach_figure s18 = some s' ∧
      ∀ y x' : Int, 0 ≤ y → y < m_height → 0 ≤ x' → x' < m_width →
        (s'.m_field y x' ≠ 0 ↔ (y = 18 ∨ y = 19) ∧ (x' = 4 ∨ x' = 4 + 1)) :=
  (soft_drop_scenario (create_matrix m_height m_width) square_figure 4 [1, 0] [] catalog_square
    (fun _ _ _ _ _ _ => rfl)
    (fun i j h1 h2 h3 h4 => by
      unfold square_figure
      rw [if_pos ⟨h1, h2, h3, h4⟩]
      decide)
    (by decide) (by decide) (by decide)).2

/-- C12 at a concrete input: the square at the top of an empty field is in mode
`MOVING`, and `render_game` gives back the same engine state. -/
theorem render_game_field_witness :
    (square_state.state ≠ States.INITIAL ∧ square_state.state ≠ States.PAUSE ∧
      square_state.state ≠ States.GAME_OVER) ∧
    render_game square_state = square_state :=
  ⟨by decide, ((render_game_field square_state (by decide)).2.2.2 (fun _ _ _ => rfl)).2⟩

/-- C16 at a concrete input: the square at the top of an empty field, in mode
`SHIFTING`, goes down one row and ends in mode `MOVING`. -/
theorem shift_figure_spec_witness :
    shifting_state.state = States.SHIFTING ∧ FigureInBounds shifting_state ∧
    (shift_figure shifting_state).m_y = shifting_state.m_y + 1 ∧
    (shift_figure shifting_state).state ≠ States.SHIFTING :=
  have hb : FigureInBounds shifting_state := (is_figure_in_field_iff _).1 (by decide)
  have h := shift_figure_spec shifting_state rfl hb
  ⟨rfl, hb,
    h.1 (fun ha => absurd ((is_figure_attached_iff shifting_state).2 ha) (by decide)),
    h.2.2.2.2.2.2.2.2⟩

/-- C19 at a concrete input: the square at the top of an empty field is not
attached, and one row lower it is inside the field and on empty cells. -/
theorem descend_keeps_invariant_witness :
    is_figure_attached square_state = false ∧
    FigureInBounds (move_figure_down square_state) ∧
    FigureOnEmptyCells (move_figure_down square_state) ∧
    (shift_figure square_state).m_y = square_state.m_y + 1 :=
  have h := descend_keeps_invariant square_state ((is_figure_in_field_iff _).1 (by decide))
    ((does_figure_fit_iff _).1 (by decide)) (by decide)
  ⟨by decide, h.1.1, h.1.2, h.2.1⟩

/-- C18 at a concrete input: the field `one_full_row` has an empty row 0, and
`clear_rows` returns the reference compaction of its rows. -/
theorem clear_rows_reference_witness :
    (∀ x : Int, 0 ≤ x → x < m_width → one_full_row_state.m_field 0 x = 0) ∧
    ∃ g : Matrix, clear_rows one_full_row_state = some { one_full_row_state with m_field := g } ∧
      field_rows g = reference_compaction (field_rows one_full_row_state.m_field) :=
  ⟨fun _ _ _ => rfl,
    (clear_rows_reference one_full_row_state (fun _ _ _ => rfl)).imp fun _ h => ⟨h.1, h.2.1⟩⟩

/-- C17 at a concrete input: from the catalog `catalog_entries` with pick 2,
`create_figure` returns size 3, the size of the second entry of size above 1,
and the cell `(1, 2)` of that entry. -/
theorem create_figure_picks_entry_witness :
    (∀ e ∈ catalog_entries, WellFormedEntry e) ∧
    ∃ t' : Tetris, create_figure catalog_state = some (3, t') ∧ t'.m_size = 3 ∧
      t'.m_figure 1 2 = 1 ∧ t'.m_figure 0 0 = 0 :=
  ⟨by decide,
    match create_figure_picks_entry catalog_entries (by decide) 2 (by decide) (by decide)
      catalog_state [] rfl rfl with
    | ⟨e, t', he, hc, hs, hcells, _⟩ => by
      have he' : some ((3 : Int), ([0, 1, 0, 1, 1, 1, 0, 0, 0] : List Int)) = some e := he
      cases he'
      exact ⟨t', hc, hs, hcells 1 2 (by decide) (by decide) (by decide) (by decide),
        hcells 0 0 (by decide) (by decide) (by decide) (by decide)⟩⟩

end Tetris
